import Mathlib

/-!
The binary-state solver example `query_world.cpp`.

A shallow embedding of `src/query_world.cpp`: the sample callback
(`packet_callback`, lines 127–174) with its change tracker and its
`sendData` retry loop, the construction of the URI filter `desired_ids`
(lines 178–194) and the start-up part of `main` (lines 55–116).

Text is modelled by its code units: a `std::string` is a list of bytes and a
`std::u16string` a list of `char16_t` values, both as `Nat`.
-/

namespace QueryWorld

/-! ## Strings -/

/-- A `std::string`: its bytes. -/
abbrev CString := List Nat

/-- A `std::u16string`: its `char16_t` code units. -/
abbrev U16String := List Nat

/-- The alias `world_model::URI` is a `std::u16string`. -/
abbrev URI := U16String

/-- The code units of a string literal of the source. -/
def lit (s : String) : List Nat := s.toList.map Char.toNat

/-- Line 47, `toU16`: every `char` is converted to `char16_t`, that is, taken
modulo 2^16.  A byte of 128 or more is a negative `char` where plain `char` is
signed, which `charSigned` records. -/
def toU16 (charSigned : Bool) (str : CString) : U16String :=
  str.map fun b =>
    if charSigned && decide (128 ≤ b % 256) then (b % 256 + 65280) % 65536 else b % 256

/-- Line 51, `toString`: every code unit is narrowed to one byte. -/
def toString (str : U16String) : CString := str.map (· % 256)

/-- The member `std::u16string::find(pat)`, searching from position 0: the
index of the first occurrence of `pat`, and `none` for `npos`. -/
def find : U16String → U16String → Option Nat
  | [], pat => if pat.isPrefixOf [] then some 0 else none
  | c :: rest, pat =>
    if pat.isPrefixOf (c :: rest) then some 0 else (find rest pat).map (· + 1)

/-- The code unit of the full stop. -/
def dot : Nat := 46

/-- Line 141: the needle `u"." + obj_class + u"."`. -/
def segment (obj_class : U16String) : U16String := dot :: obj_class ++ [dot]

/-- Line 141: `uri.find(u"." + obj_class + u".") != npos`. -/
def hasSegment (uri : URI) (obj_class : U16String) : Bool :=
  (find uri (segment obj_class)).isSome

/-! ## Samples, updates and the world the callback acts on -/

/-- The fields of `SampleData` the callback reads. -/
structure SampleData where
  valid : Bool
  physical_layer : Nat
  tx_id : Nat
  sense_data : List Nat
  deriving DecidableEq

/-- The aggregate `SolverWorldModel::AttrUpdate` of line 142. -/
structure AttrUpdate where
  name : U16String
  creation_date : Nat
  uri : URI
  data : List Nat
  deriving DecidableEq

/-- What a call of `sendData` can throw: a `std::runtime_error` with its
`what()` text, or an exception of another type, which the handler of line 152
does not catch. -/
inductive Exn where
  | runtime_error (what : CString)
  | other (tag : Nat)
  deriving DecidableEq

/-- The outcome of the `k`-th call of `swm.sendData` of the run, given the
batch: `none` when the call returns, `some e` when it throws `e`. -/
abbrev SendOracle := Nat → List AttrUpdate → Option Exn

/-- The state captured by reference by the callback together with what it has
done so far: the two maps, every call of `sendData` in order with its batch,
the texts written to `std::cout` and `std::cerr` (one entry per output
statement), and the number of calls of `getGRAILTime`. -/
structure World where
  tx_to_uri : Nat × Nat → Option URI
  switch_state : URI → Option Bool
  sent : List (List AttrUpdate)
  cout : List CString
  cerr : List CString
  timeReads : Nat

/-- Line 154: the `what()` text that marks a send failure as transient. -/
def transientWhat : CString :=
  lit "Error sending data over socket: Resource temporarily unavailable"

/-- Line 155: the text logged before a retry. -/
def retryNotice : CString :=
  lit "Experiencing socket slow down with world model connection. Retrying...\n"

/-- The library function `readPrimitive<uint8_t>(buff, index)` of
`owl/netbuffer.hpp`: the byte at `index`. -/
def readPrimitive (buff : List Nat) (index : Nat) : Nat := buff.getD index 0 % 256

/-- The library function `pushBackVal<uint8_t>(val, buff)` of
`owl/netbuffer.hpp`: appends the byte. -/
def pushBackVal (val : Nat) (buff : List Nat) : List Nat := buff ++ [val % 256]

/-- Lines 146–163, the retry loop around `swm.sendData(solns, false)`.  One
unit of fuel is one iteration of `while (retry)`; `none` means the fuel ran
out.  The result is the exception leaving the loop, if any, and the world. -/
def retryLoop (sendData : SendOracle) (solns : List AttrUpdate) :
    Nat → World → Option (Option Exn × World)
  | 0, _ => none
  | fuel + 1, w =>
    let w1 := { w with sent := w.sent ++ [solns] }
    match sendData w.sent.length solns with
    | none => some (none, w1)
    | some (Exn.runtime_error what) =>
      if what = transientWhat then
        retryLoop sendData solns fuel { w1 with cerr := w1.cerr ++ [retryNotice] }
      else some (some (Exn.runtime_error what), w1)
    | some (Exn.other tag) => some (some (Exn.other tag), w1)

/-- Lines 164–168: the line written to `std::cout` after a successful push. -/
def reportLine (uri : URI) (solution : U16String) (switch_on : Bool) : CString :=
  if switch_on then toString uri ++ lit " is " ++ toString solution ++ lit "\n"
  else toString uri ++ lit " is not " ++ toString solution ++ lit "\n"

/-- Lines 142–144: the single-element batch for one class. -/
def makeBatch (solution : U16String) (now : Nat) (uri : URI) (switch_on : Bool) :
    List AttrUpdate :=
  [{ name := solution, creation_date := now, uri := uri,
     data := pushBackVal (if switch_on then 1 else 0) [] }]

/-- Lines 140–170: the loop over `object_to_solution` in iteration order. -/
def classLoop (sendData : SendOracle) (getGRAILTime : Nat → Nat) (fuel : Nat) (uri : URI)
    (switch_on : Bool) : List (U16String × U16String) → World → Option (Option Exn × World)
  | [], w => some (none, w)
  | obj_soln :: rest, w =>
    if hasSegment uri obj_soln.1 then
      let solns := makeBatch obj_soln.2 (getGRAILTime w.timeReads) uri switch_on
      match retryLoop sendData solns fuel { w with timeReads := w.timeReads + 1 } with
      | none => none
      | some (some e, w1) => some (some e, w1)
      | some (none, w1) =>
        classLoop sendData getGRAILTime fuel uri switch_on rest
          { w1 with cout := w1.cout ++ [reportLine uri obj_soln.2 switch_on] }
    else classLoop sendData getGRAILTime fuel uri switch_on rest w

/-- Line 134, `tx_to_uri[key]`: the URI the lookup yields; `operator[]` yields
a default-constructed (empty) URI for an absent key. -/
def lookupUri (tx_to_uri : Nat × Nat → Option URI) (key : Nat × Nat) : URI :=
  (tx_to_uri key).getD []

/-- Line 134, `tx_to_uri[key]`: `operator[]` inserts the empty URI for an
absent key and leaves the map alone otherwise. -/
def touchUri (tx_to_uri : Nat × Nat → Option URI) (key : Nat × Nat) : Nat × Nat → Option URI :=
  match tx_to_uri key with
  | some _ => tx_to_uri
  | none => Function.update tx_to_uri key (some [])

/-- Line 137: the novelty test
`switch_state.end() == switch_state.find(uri) or switch_state[uri] != switch_on`. -/
def shouldReport (switch_state : URI → Option Bool) (uri : URI) (switch_on : Bool) : Bool :=
  match switch_state uri with
  | none => true
  | some recorded => recorded != switch_on

/-- Lines 137–138: the novelty decision and the tracker after it. -/
def trackerStep (switch_state : URI → Option Bool) (uri : URI) (switch_on : Bool) :
    Bool × (URI → Option Bool) :=
  if shouldReport switch_state uri switch_on then
    (true, Function.update switch_state uri (some switch_on))
  else (false, switch_state)

/-- Lines 127–174, the lambda `packet_callback`.  `fuel` bounds each retry
loop; the result is the exception that leaves the callback, if any, and the
world at that point. -/
def packet_callback (object_to_solution : List (U16String × U16String))
    (sendData : SendOracle) (getGRAILTime : Nat → Nat) (fuel : Nat) (s : SampleData)
    (w : World) : Option (Option Exn × World) :=
  if s.valid && s.sense_data.length == 1 then
    let switch_value := readPrimitive s.sense_data 0
    if switch_value == 0 || switch_value == 255 then
      let key := (s.physical_layer, s.tx_id)
      let uri := lookupUri w.tx_to_uri key
      let w1 := { w with tx_to_uri := touchUri w.tx_to_uri key }
      let switch_on := switch_value == 255
      let step := trackerStep w1.switch_state uri switch_on
      if step.1 then
        classLoop sendData getGRAILTime fuel uri switch_on object_to_solution
          { w1 with switch_state := step.2 }
      else some (none, w1)
    else some (none, w)
  else some (none, w)


/-- The world when the callback is created: both maps empty (lines 76 and
123), nothing sent or written. -/
def World.initial : World :=
  { tx_to_uri := fun _ => none, switch_state := fun _ => none,
    sent := [], cout := [], cerr := [], timeReads := 0 }

/-! ## Vocabulary for stating what the callback does -/

/-- The entries of the class→solution map, in iteration order, whose class
occurs in `uri` as a `.class.` segment (the test of line 141). -/
def matching (object_to_solution : List (U16String × U16String)) (uri : URI) :
    List (U16String × U16String) :=
  object_to_solution.filter fun obj_soln => hasSegment uri obj_soln.1

/-- One single-element batch per listed entry, the `i`-th stamped with the
`(t0 + i)`-th reading of the clock. -/
def batchesFor (getGRAILTime : Nat → Nat) (uri : URI) (switch_on : Bool) :
    Nat → List (U16String × U16String) → List (List AttrUpdate)
  | _, [] => []
  | t0, obj_soln :: rest =>
    makeBatch obj_soln.2 (getGRAILTime t0) uri switch_on ::
      batchesFor getGRAILTime uri switch_on (t0 + 1) rest

/-- One console line per listed entry. -/
def linesFor (uri : URI) (switch_on : Bool) (entries : List (U16String × U16String)) :
    List CString :=
  entries.map fun obj_soln => reportLine uri obj_soln.2 switch_on

/-- Samples delivered to a callback one after another, each on the world the
previous call left, whether that call returned or threw; the result lists the
world after each sample, and is `none` when a call does not finish. -/
def deliver (callback : SampleData → World → Option (Option Exn × World)) :
    List SampleData → World → Option (List World)
  | [], _ => some []
  | s :: rest, w =>
    match callback s w with
    | some (_, w1) => (deliver callback rest w1).map (w1 :: ·)
    | none => none

/-- How many of the successive worlds differ from their predecessor in the
tracker entry of `uri`: the number of samples judged novel for `uri`. -/
def reports (uri : URI) : World → List World → Nat
  | _, [] => 0
  | w, w1 :: rest =>
    (if w1.switch_state uri = w.switch_state uri then 0 else 1) + reports uri w1 rest

/-- The number of positions of a byte sequence whose byte differs from the
byte before it. -/
def changes : List Nat → Nat
  | a :: b :: rest => (if a = b then 0 else 1) + changes (b :: rest)
  | _ => 0

/-- A valid one-byte sample of the transmitter `(physical_layer, tx_id)`. -/
def sampleOf (physical_layer tx_id : Nat) (b : Nat) : SampleData :=
  { valid := true, physical_layer := physical_layer, tx_id := tx_id, sense_data := [b] }

/-- The world of the end-to-end scenario: the transmitter `(1, 42)` is mapped
to `room1.mug.mug42`, and nothing has happened yet. -/
def World.mugScenario : World :=
  { World.initial with
    tx_to_uri := fun key => if key = (1, 42) then some (lit "room1.mug.mug42") else none }

/-! ## The URI filter

`desired_ids` is built as a POSIX extended regular expression over URIs, the
form in which the world model takes its queries (comments of lines 179 and
214–216).  The matcher is not part of this program; the core of the POSIX
grammar is modelled here: ordinary characters, `.`, escaped special
characters, grouping, alternation and the duplication symbols `*`, `+` and
`?`.  A pattern outside that core (bracket expressions, intervals, anchors,
constructs POSIX leaves undefined) does not compile in the model.  Matching is
modelled both as a match of the whole URI and as an unanchored search. -/

/-- Abstract syntax of an extended regular expression. -/
inductive Ere where
  | nothing
  | eps
  | chr (c : Nat)
  | any
  | alt (a b : Ere)
  | seq (a b : Ere)
  | star (a : Ere)
  deriving DecidableEq

/-- The concatenation of a list of pieces. -/
def mkSeq (pieces : List Ere) : Ere := pieces.foldr Ere.seq Ere.eps

/-- The alternation of a list of branches. -/
def mkAlt (branches : List Ere) : Ere := branches.foldr Ere.alt Ere.nothing

/-- An open group, or the top level, while a pattern is read: the branches
completed so far and the pieces of the branch being read, both most recent
first. -/
structure Frame where
  branches : List Ere
  pieces : List Ere
  deriving DecidableEq

/-- The expression of a group once it is complete. -/
def Frame.close (f : Frame) : Ere :=
  mkAlt (f.branches.reverse ++ [mkSeq f.pieces.reverse])

/-- The characters that are special in an extended regular expression outside
a bracket expression: `.` `[` `\` `(` `)` `*` `+` `?` `{` `|` `^` `$`. -/
def ereSpecial (c : Nat) : Bool :=
  c == 46 || c == 91 || c == 92 || c == 40 || c == 41 || c == 42 || c == 43 || c == 63 ||
    c == 123 || c == 124 || c == 94 || c == 36

/-- The state of reading a pattern left to right: the innermost open group,
the groups around it, and whether the last character was an unescaped
backslash. -/
structure Reader where
  cur : Frame
  stack : List Frame
  escaped : Bool
  deriving DecidableEq

/-- Appends a piece to the branch being read. -/
def Reader.push (r : Reader) (piece : Ere) : Reader :=
  { r with cur := { r.cur with pieces := piece :: r.cur.pieces }, escaped := false }

/-- Replaces the last piece of the branch being read by a duplication of it;
a duplication symbol with nothing before it does not compile. -/
def Reader.duplicate (r : Reader) (f : Ere → Ere) : Option Reader :=
  match r.cur.pieces with
  | [] => none
  | p :: ps => some { r with cur := { r.cur with pieces := f p :: ps } }

/-- Reading one character of a pattern; `none`: the pattern does not compile. -/
def readChar (r : Reader) (c : Nat) : Option Reader :=
  if r.escaped then
    if ereSpecial c || c == 93 || c == 125 then some (r.push (Ere.chr c)) else none
  else if c = 92 then some { r with escaped := true }
  else if c = 40 then some { cur := ⟨[], []⟩, stack := r.cur :: r.stack, escaped := false }
  else if c = 41 then
    match r.stack with
    | [] => none
    | outer :: outers =>
      some { cur := { outer with pieces := r.cur.close :: outer.pieces }, stack := outers,
             escaped := false }
  else if c = 124 then
    some { r with cur := ⟨mkSeq r.cur.pieces.reverse :: r.cur.branches, []⟩ }
  else if c = 42 then r.duplicate Ere.star
  else if c = 43 then r.duplicate fun p => Ere.seq p (Ere.star p)
  else if c = 63 then r.duplicate fun p => Ere.alt p Ere.eps
  else if c = 46 then some (r.push Ere.any)
  else if c = 91 ∨ c = 123 ∨ c = 94 ∨ c = 36 then none
  else some (r.push (Ere.chr c))

/-- Reading a pattern from a given state. -/
def readAll : List Nat → Reader → Option Reader
  | [], r => some r
  | c :: rest, r =>
    match readChar r c with
    | some r1 => readAll rest r1
    | none => none

/-- Compiling a pattern: every group must be closed and no backslash may be
left dangling. -/
def parseEre (pattern : List Nat) : Option Ere :=
  match readAll pattern { cur := ⟨[], []⟩, stack := [], escaped := false } with
  | some r => if r.stack = [] ∧ r.escaped = false then some r.cur.close else none
  | none => none

/-- Whether the expression matches the empty string. -/
def Ere.nullable : Ere → Bool
  | nothing => false
  | eps => true
  | chr _ => false
  | any => false
  | alt a b => a.nullable || b.nullable
  | seq a b => a.nullable && b.nullable
  | star _ => true

/-- The derivative of an expression by one code unit. -/
def Ere.deriv : Ere → Nat → Ere
  | nothing, _ => nothing
  | eps, _ => nothing
  | chr c, x => if c = x then eps else nothing
  | any, _ => eps
  | alt a b, x => alt (a.deriv x) (b.deriv x)
  | seq a b, x =>
    if a.nullable then alt (seq (a.deriv x) b) (b.deriv x) else seq (a.deriv x) b
  | star a, x => seq (a.deriv x) (star a)

/-- Whether the expression matches the whole of `subject`. -/
def Ere.rmatch : Ere → List Nat → Bool
  | r, [] => r.nullable
  | r, x :: rest => (r.deriv x).rmatch rest

/-- Whether the pattern, read as an extended regular expression, matches the
whole of `subject`; a pattern that does not compile matches nothing. -/
def ereMatches (pattern subject : List Nat) : Bool :=
  match parseEre pattern with
  | some r => r.rmatch subject
  | none => false

/-- Whether the pattern matches some substring of `subject`, as an unanchored
search does; a pattern that does not compile matches nothing. -/
def ereSearch (pattern subject : List Nat) : Bool :=
  match parseEre pattern with
  | some r => subject.tails.any fun t => t.inits.any r.rmatch
  | none => false

/-- The strings an expression matches. -/
def Ere.lang : Ere → Language Nat
  | nothing => 0
  | eps => 1
  | chr c => {[c]}
  | any => {w | ∃ c, w = [c]}
  | alt a b => a.lang + b.lang
  | seq a b => a.lang * b.lang
  | star a => KStar.kstar a.lang

/-- Lines 186–192: the loop that appends the class names, a `|` before each
but the first. -/
def appendClasses : U16String → Bool → List (U16String × U16String) → U16String
  | desired_ids, _, [] => desired_ids
  | desired_ids, atBegin, obj_soln :: rest =>
    appendClasses ((if atBegin then desired_ids else desired_ids ++ lit "|") ++ obj_soln.1)
      false rest

/-- Lines 180–194: the URI filter built from the class→solution map, whose
entries are given in iteration order. -/
def desired_ids (object_to_solution : List (U16String × U16String)) : U16String :=
  match object_to_solution with
  | [only] => lit ".*\\." ++ only.1 ++ lit "\\..*"
  | _ => appendClasses (lit ".*\\." ++ lit "(") true object_to_solution ++ lit ")\\..*"

/-! ## Start-up: arguments and configuration file -/

/-- The comparison `std::less<std::u16string>` that orders the keys of
`object_to_solution`: lexicographic on the code units. -/
def u16Less : U16String → U16String → Bool
  | [], [] => false
  | [], _ :: _ => true
  | _ :: _, [] => false
  | a :: as, b :: bs => decide (a < b) || (a == b && u16Less as bs)

/-- Line 98, `object_to_solution[key] = value` on the entries of the map in
key order: overwrite the value of an equivalent key, else insert in order. -/
def mapAssign (key value : U16String) :
    List (U16String × U16String) → List (U16String × U16String)
  | [] => [(key, value)]
  | entry :: rest =>
    if u16Less key entry.1 then (key, value) :: entry :: rest
    else if u16Less entry.1 key then entry :: mapAssign key value rest
    else (entry.1, value) :: rest

/-- Whitespace for `operator>>` in the classic locale: space and the five
control characters tab, newline, vertical tab, form feed, carriage return. -/
def isspace (c : Nat) : Bool := c == 32 || (decide (9 ≤ c) && decide (c ≤ 13))

/-- One `is >> token` on the unread part of the line: skip whitespace, then
take the characters up to the next whitespace.  `none`: nothing but
whitespace was left and the stream fails.  Otherwise the token and the part
still unread. -/
def extract (unread : CString) : Option (CString × CString) :=
  match unread.dropWhile isspace with
  | [] => none
  | c :: rest =>
    some ((c :: rest).takeWhile (fun x => !isspace x), (c :: rest).dropWhile (fun x => !isspace x))

/-- Line 89, `is >> obj_class >> solution`: the two tokens when both
extractions succeed. -/
def extractPair (line : CString) : Option (CString × CString) :=
  match extract line with
  | none => none
  | some (obj_class, unread) =>
    match extract unread with
    | none => none
    | some (solution, _) => some (obj_class, solution)

/-- Line 86, the successive results of `std::getline(config, line)` on the
content of the file.  `pending` is the line being read, `none` when no
character has been read since the last newline. -/
def getlines : List Nat → Option CString → List CString
  | [], none => []
  | [], some line => [line]
  | c :: rest, pending =>
    if c = 10 then pending.getD [] :: getlines rest none
    else getlines rest (some (pending.getD [] ++ [c]))

/-- What start-up has read from the configuration file. -/
structure Config where
  type_pairs : List (U16String × Bool)
  object_to_solution : List (U16String × U16String)
  cerr : List CString
  deriving DecidableEq

/-- Lines 87–102: one pass of the loop over the lines of the file. -/
def readLine (charSigned : Bool) (cfg : Config) (line : CString) : Config :=
  match extractPair line with
  | some (obj_class, solution) =>
    let obj_class := obj_class.map fun c => if c = 95 then 32 else c
    { type_pairs := cfg.type_pairs ++ [(toU16 charSigned solution, false)],
      cerr := cfg.cerr ++
        [lit "Class \"" ++ obj_class ++ lit "\" has solution name \"" ++ solution ++ lit "\n"],
      object_to_solution :=
        mapAssign (toU16 charSigned obj_class) (toU16 charSigned solution)
          cfg.object_to_solution }
  | none =>
    { cfg with cerr := cfg.cerr ++
        [lit "Couldn't make sense of line: \"" ++ line ++ lit "\"\n"] }

/-- Lines 84–104: the whole file. -/
def readConfig (charSigned : Bool) (content : CString) : Config :=
  (getlines content none).foldl (readLine charSigned) ⟨[], [], []⟩

/-- What `main` does that the outside can see, in order. -/
inductive Event where
  | cerr (text : CString)
  | openConfig (path : CString)
  | connectSolver (wm_ip : CString) (port : Nat) (types : List (U16String × Bool))
      (origin : U16String)
  | startAggregator
  | connectClient (wm_ip : CString) (port : Int)
  deriving DecidableEq

/-- How the modelled part of `main` ends: it returns a value, `std::stoi`
throws, or it goes on to the queries of line 214 on. -/
inductive Ending where
  | returned (code : Nat)
  | stoiThrew
  | queries
  deriving DecidableEq

/-- A run of `main` up to line 213. -/
structure MainRun where
  ending : Ending
  events : List Event
  object_to_solution : List (U16String × U16String)
  desired_ids : Option U16String
  deriving DecidableEq

/-- What `main` takes from outside the program: whether plain `char` is
signed, the library function `std::stoi` (`none` when it throws), the files
that can be opened with their content, the undeclared `solver_port`, and
whether the two connections come up. -/
structure Platform where
  charSigned : Bool
  stoi : CString → Option Int
  files : CString → Option CString
  solver_port : Nat
  solverConnected : Bool
  clientConnected : Bool

/-- Lines 55–213 of `main`, with `arg_vector` as the list of its strings. -/
def main (env : Platform) (arg_vector : List CString) : MainRun :=
  let arg_count := arg_vector.length
  if arg_count ≠ 3 then
    { ending := Ending.returned 0,
      events := [Event.cerr (lit
        "This program needs two arguments: the ip address and client port of a world model\n")],
      object_to_solution := [], desired_ids := none }
  else
    let wm_ip := arg_vector.getD 1 []
    match env.stoi (arg_vector.getD 2 []) with
    | none => { ending := Ending.stoiThrew, events := [], object_to_solution := [],
                desired_ids := none }
    | some client_port =>
      let origin := lit "binary_state_solver"
      let path := arg_vector.getD (arg_count - 1) []
      match env.files path with
      | none =>
        { ending := Ending.returned 1,
          events := [Event.openConfig path,
            Event.cerr (lit "Error opening configuration file \"" ++ path ++ lit "\"\n")],
          object_to_solution := [], desired_ids := none }
      | some content =>
        let cfg := readConfig env.charSigned content
        let read := Event.openConfig path :: cfg.cerr.map Event.cerr
        if cfg.object_to_solution.isEmpty then
          { ending := Ending.returned 1,
            events := read ++
              [Event.cerr (lit "There are no types in the config file - aborting.\n")],
            object_to_solution := cfg.object_to_solution, desired_ids := none }
        else
          let solver := read ++
            [Event.cerr (lit "Trying to connect to world model as a solver.\n"),
             Event.connectSolver wm_ip env.solver_port cfg.type_pairs
               (toU16 env.charSigned origin)]
          if !env.solverConnected then
            { ending := Ending.returned 0,
              events := solver ++ [Event.cerr (lit
                "Could not connect to the world model as a solver - aborting.\n")],
              object_to_solution := cfg.object_to_solution, desired_ids := none }
          else
            let client := solver ++
              [Event.startAggregator,
               Event.cerr (lit "Trying to connect to world model as a client.\n"),
               Event.connectClient wm_ip client_port]
            if !env.clientConnected then
              { ending := Ending.returned 0,
                events := client ++
                  [Event.cerr (lit "Problem connecting to world model. Exiting\n")],
                object_to_solution := cfg.object_to_solution,
                desired_ids := some (desired_ids cfg.object_to_solution) }
            else
              { ending := Ending.queries, events := client,
                object_to_solution := cfg.object_to_solution,
                desired_ids := some (desired_ids cfg.object_to_solution) }

/-- The whitespace-separated tokens of a line. -/
def wsTokens : CString → List CString
  | [] => []
  | c :: rest =>
    if isspace c then wsTokens rest
    else
      match rest with
      | [] => [[c]]
      | d :: _ =>
        if isspace d then [c] :: wsTokens rest
        else
          match wsTokens rest with
          | [] => [[c]]
          | token :: tokens => (c :: token) :: tokens

/-- A platform for examples: `std::stoi` reads `7010`, and the one file is
named `7010`. -/
def Platform.demo (content : CString) : Platform :=
  { charSigned := true,
    stoi := fun s => if s = lit "7010" then some 7010 else none,
    files := fun path => if path = lit "7010" then some content else none,
    solver_port := 7009, solverConnected := true, clientConnected := true }

/-! ## Frame facts shared by the proofs below -/

/-- The retry loop touches only the send log and `std::cerr`. -/
theorem retryLoop_frame (sendData : SendOracle) (solns : List AttrUpdate) (fuel : Nat)
    (w : World) (r : Option Exn × World) (h : retryLoop sendData solns fuel w = some r) :
    r.2.switch_state = w.switch_state ∧ r.2.tx_to_uri = w.tx_to_uri ∧ r.2.cout = w.cout ∧
      r.2.timeReads = w.timeReads := by
  induction fuel generalizing w with
  | zero => simp [retryLoop] at h
  | succ f ih =>
    simp only [retryLoop] at h
    split at h
    · cases h; simp
    · split at h
      · have := ih _ h
        simpa using this
      · cases h; simp
    · cases h; simp

/-- The loop over the classes leaves both maps alone. -/
theorem classLoop_frame (sendData : SendOracle) (getGRAILTime : Nat → Nat) (fuel : Nat)
    (uri : URI) (switch_on : Bool) (m : List (U16String × U16String)) (w : World)
    (r : Option Exn × World)
    (h : classLoop sendData getGRAILTime fuel uri switch_on m w = some r) :
    r.2.switch_state = w.switch_state ∧ r.2.tx_to_uri = w.tx_to_uri := by
  induction m generalizing w with
  | nil => simp [classLoop] at h; cases h; simp
  | cons e rest ih =>
    simp only [classLoop] at h
    split at h
    · split at h
      · simp at h
      · rename_i e1 w1 hr
        cases h
        have := retryLoop_frame _ _ _ _ _ hr
        simpa using ⟨this.1, this.2.1⟩
      · rename_i w1 hr
        have h1 := ih _ h
        have := retryLoop_frame _ _ _ _ _ hr
        simp at h1 this
        exact ⟨h1.1.trans this.1, h1.2.trans this.2.1⟩
    · exact ih _ h

/-- A first call of `sendData` that returns ends the retry loop at once. -/
theorem retryLoop_ok_first (sendData : SendOracle) (solns : List AttrUpdate) (fuel : Nat)
    (w : World) (hok : sendData w.sent.length solns = none) (hfuel : 0 < fuel) :
    retryLoop sendData solns fuel w = some (none, { w with sent := w.sent ++ [solns] }) := by
  obtain ⟨f, rfl⟩ : ∃ f, fuel = f + 1 := ⟨fuel - 1, by omega⟩
  simp [retryLoop, hok]

/-- A first call of `sendData` that throws a non-transient exception ends the
retry loop at once, with that exception. -/
theorem retryLoop_throw_first (sendData : SendOracle) (solns : List AttrUpdate)
    (fuel : Nat) (w : World) (e : Exn)
    (hthrow : sendData w.sent.length solns = some e)
    (hperm : e ≠ Exn.runtime_error transientWhat)
    (hfuel : 0 < fuel) :
    retryLoop sendData solns fuel w = some (some e, { w with sent := w.sent ++ [solns] }) := by
  obtain ⟨f, rfl⟩ : ∃ f, fuel = f + 1 := ⟨fuel - 1, by omega⟩
  cases e with
  | runtime_error what =>
    have hw : what ≠ transientWhat := fun h => hperm (by rw [h])
    simp [retryLoop, hthrow, hw]
  | other tag => simp [retryLoop, hthrow]

/-- The callback on a qualifying sample, unfolded. -/
theorem packet_callback_qualifying (object_to_solution : List (U16String × U16String))
    (sendData : SendOracle) (getGRAILTime : Nat → Nat) (fuel : Nat) (s : SampleData)
    (w : World) (b : Nat) (hv : s.valid = true) (hd : s.sense_data = [b])
    (hb : b = 0 ∨ b = 255) :
    packet_callback object_to_solution sendData getGRAILTime fuel s w =
      if (trackerStep w.switch_state (lookupUri w.tx_to_uri (s.physical_layer, s.tx_id))
            (b == 255)).1 then
        classLoop sendData getGRAILTime fuel
          (lookupUri w.tx_to_uri (s.physical_layer, s.tx_id)) (b == 255) object_to_solution
          { w with tx_to_uri := touchUri w.tx_to_uri (s.physical_layer, s.tx_id),
                   switch_state := (trackerStep w.switch_state
                     (lookupUri w.tx_to_uri (s.physical_layer, s.tx_id)) (b == 255)).2 }
      else some (none, { w with tx_to_uri := touchUri w.tx_to_uri (s.physical_layer, s.tx_id) }) := by
  rcases hb with rfl | rfl <;> simp [packet_callback, hv, hd, readPrimitive]

/-- A key that is present is left alone by `operator[]`. -/
theorem touchUri_present (tx_to_uri : Nat × Nat → Option URI) (key : Nat × Nat) (u : URI)
    (h : tx_to_uri key = some u) : touchUri tx_to_uri key = tx_to_uri := by
  simp [touchUri, h]

/-- A key that is present yields its URI. -/
theorem lookupUri_present (tx_to_uri : Nat × Nat → Option URI) (key : Nat × Nat) (u : URI)
    (h : tx_to_uri key = some u) : lookupUri tx_to_uri key = u := by
  simp [lookupUri, h]

/-! ## The retry loop -/

/-- C6: if the first `N` calls of `sendData` made by the retry loop throw the
transient `std::runtime_error` and call `N + 1` returns, then with enough fuel
the loop ends normally after exactly `N + 1` calls, each with the same batch;
it logs `N` retry notices and changes nothing else. -/
theorem retryLoop_transient_then_ok (sendData : SendOracle) (solns : List AttrUpdate)
    (N fuel : Nat) (w : World)
    (hfail : ∀ i, i < N →
      sendData (w.sent.length + i) solns = some (Exn.runtime_error transientWhat))
    (hok : sendData (w.sent.length + N) solns = none)
    (hfuel : N < fuel) :
    retryLoop sendData solns fuel w =
      some (none, { w with sent := w.sent ++ List.replicate (N + 1) solns,
                           cerr := w.cerr ++ List.replicate N retryNotice }) := by
  induction N generalizing fuel w with
  | zero =>
    obtain ⟨f, rfl⟩ : ∃ f, fuel = f + 1 := ⟨fuel - 1, by omega⟩
    simp only [Nat.add_zero] at hok
    simp [retryLoop, hok]
  | succ n ih =>
    obtain ⟨f, rfl⟩ : ∃ f, fuel = f + 1 := ⟨fuel - 1, by omega⟩
    have h0 := hfail 0 (by omega)
    simp only [Nat.add_zero] at h0
    simp only [retryLoop, h0, if_true]
    rw [ih]
    · simp [List.replicate_succ, List.append_assoc]
    · intro i hi
      have := hfail (i + 1) (by omega)
      simpa [Nat.add_assoc, Nat.add_comm 1 i] using this
    · simpa [Nat.add_assoc, Nat.add_comm 1 n] using hok
    · omega

/-- C7: if the first call of `sendData` throws anything other than the
transient `std::runtime_error`, the loop makes exactly that one call and the
exception leaves it. -/
theorem retryLoop_permanent (sendData : SendOracle) (solns : List AttrUpdate)
    (fuel : Nat) (w : World) (e : Exn)
    (hthrow : sendData w.sent.length solns = some e)
    (hperm : e ≠ Exn.runtime_error transientWhat)
    (hfuel : 0 < fuel) :
    retryLoop sendData solns fuel w = some (some e, { w with sent := w.sent ++ [solns] }) := by
  obtain ⟨f, rfl⟩ : ∃ f, fuel = f + 1 := ⟨fuel - 1, by omega⟩
  cases e with
  | runtime_error what =>
    have hw : what ≠ transientWhat := fun h => hperm (by rw [h])
    simp [retryLoop, hthrow, hw]
  | other tag => simp [retryLoop, hthrow]

/-- Witness for C6: two transient failures, then success: three calls. -/
theorem retryLoop_transient_then_ok_witness :
    (retryLoop (fun k _ => if k < 2 then some (Exn.runtime_error transientWhat) else none)
        (makeBatch (lit "switch_state") 7 (lit "room1.mug.mug42") true) 3 World.initial).map
      (fun r => (r.1, r.2.sent.length, r.2.cerr.length)) = some (none, 3, 2) := by
  rw [retryLoop_transient_then_ok _ _ 2 3 World.initial
    (by intro i hi; have : World.initial.sent.length = 0 := rfl; simp [this, hi])
    (by rfl) (by decide)]
  rfl

/-- Witness for C7: a broken pipe is thrown on after one call. -/
theorem retryLoop_permanent_witness :
    (retryLoop (fun _ _ => some (Exn.runtime_error (lit "Error sending data over socket: Broken pipe")))
        (makeBatch (lit "switch_state") 7 (lit "room1.mug.mug42") true) 5 World.initial).map
      (fun r => (r.1, r.2.sent.length)) =
      some (some (Exn.runtime_error (lit "Error sending data over socket: Broken pipe")), 1) := by
  rw [retryLoop_permanent _ _ 5 World.initial _ rfl (by decide) (by decide)]
  rfl

/-! ## The guards of the callback -/

/-- C4: a sample that is not valid, or whose sense data is not exactly one
byte, or whose one byte lies in 1..254, is a no-op: the callback returns
normally with the world (both maps, the calls of `sendData`, both output
streams) unchanged, whatever the fuel. -/
theorem packet_callback_filtered (object_to_solution : List (U16String × U16String))
    (sendData : SendOracle) (getGRAILTime : Nat → Nat) (fuel : Nat) (s : SampleData)
    (w : World)
    (h : s.valid = false ∨ s.sense_data.length ≠ 1 ∨
      ∃ b, s.sense_data = [b] ∧ 1 ≤ b ∧ b ≤ 254) :
    packet_callback object_to_solution sendData getGRAILTime fuel s w = some (none, w) := by
  rcases h with h | h | ⟨b, hb, h1, h2⟩
  · simp [packet_callback, h]
  · simp [packet_callback, h]
  · have hmod : b % 256 = b := Nat.mod_eq_of_lt (by omega)
    have h0 : ¬ b = 0 := by omega
    have h255 : ¬ b = 255 := by omega
    simp [packet_callback, hb, readPrimitive, hmod, h0, h255]

/-- Witness for C4: a valid one-byte sample of value 128. -/
theorem packet_callback_filtered_witness :
    (packet_callback [(lit "mug", lit "switch_state")] (fun _ _ => none) (fun _ => 0) 1
        ⟨true, 1, 42, [128]⟩ World.initial).map
      (fun r => (r.1, r.2.sent, r.2.cout, r.2.cerr, r.2.switch_state (lit "room1.mug.mug42"))) =
      some (none, [], [], [], none) := by
  rw [packet_callback_filtered _ _ _ 1 ⟨true, 1, 42, [128]⟩ World.initial
    (Or.inr (Or.inr ⟨128, rfl, by decide, by decide⟩))]
  rfl

/-! ## The change tracker -/

/-- C2: the novelty decision of lines 137–138 is true exactly when the URI has
no recorded value or a recorded value different from the new one; when true,
the tracker afterwards maps the URI to the new value and agrees with the old
tracker elsewhere; when false, the tracker is unchanged.  The tracker the
callback leaves behind for a qualifying sample is the one this step yields. -/
theorem trackerStep_spec (switch_state : URI → Option Bool) (uri : URI) (switch_on : Bool) :
    ((trackerStep switch_state uri switch_on).1 = true ↔
      (switch_state uri = none ∨ ∃ recorded, switch_state uri = some recorded ∧
        recorded ≠ switch_on)) ∧
    ((trackerStep switch_state uri switch_on).1 = true →
      (trackerStep switch_state uri switch_on).2 uri = some switch_on ∧
      ∀ other, other ≠ uri →
        (trackerStep switch_state uri switch_on).2 other = switch_state other) ∧
    ((trackerStep switch_state uri switch_on).1 = false →
      (trackerStep switch_state uri switch_on).2 = switch_state) ∧
    (∀ object_to_solution sendData getGRAILTime fuel (s : SampleData) (w : World) b r,
      w.switch_state = switch_state → s.valid = true → s.sense_data = [b] →
      (b = 0 ∨ b = 255) → lookupUri w.tx_to_uri (s.physical_layer, s.tx_id) = uri →
      switch_on = (b == 255) →
      packet_callback object_to_solution sendData getGRAILTime fuel s w = some r →
      r.2.switch_state = (trackerStep switch_state uri switch_on).2) := by
  refine ⟨?_, ?_, ?_, ?_⟩
  · unfold trackerStep shouldReport
    cases h : switch_state uri with
    | none => simp
    | some recorded => cases recorded <;> cases switch_on <;> simp
  · intro h
    have hs : shouldReport switch_state uri switch_on = true := by
      by_contra hn
      simp [trackerStep, hn] at h
    simp only [trackerStep, hs, if_true]
    exact ⟨by simp, fun other ho => by simp [Function.update, ho]⟩
  · intro h
    have hs : ¬ shouldReport switch_state uri switch_on = true := by
      intro hn
      simp [trackerStep, hn] at h
    simp [trackerStep, hs]
  · intro m sendData getGRAILTime fuel s w b r hw hv hd hb hu hon hr
    rw [packet_callback_qualifying m sendData getGRAILTime fuel s w b hv hd hb, hu, hw,
      ← hon] at hr
    split at hr
    · exact (classLoop_frame _ _ _ _ _ _ _ _ hr).1
    · rename_i hn
      cases hr
      have hs : ¬ shouldReport switch_state uri switch_on = true := by
        intro hs
        exact hn (by simp [trackerStep, hs])
      simp [trackerStep, hs, hw]

/-- Witness for C2: from an empty tracker the value `on` for `room1.mug.mug42`
is novel and recorded; a second `on` is not novel; and the callback leaves the
tracker of the step behind. -/
theorem trackerStep_spec_witness :
    (trackerStep (fun _ => none) (lit "room1.mug.mug42") true).1 = true ∧
    (trackerStep (fun _ => none) (lit "room1.mug.mug42") true).2 (lit "room1.mug.mug42") =
      some true ∧
    (trackerStep (Function.update (fun _ => none) (lit "room1.mug.mug42") (some true))
      (lit "room1.mug.mug42") true).1 = false ∧
    ∀ r, packet_callback [(lit "mug", lit "switch_state")] (fun _ _ => none) (fun _ => 7) 1
        ⟨true, 1, 42, [255]⟩ World.mugScenario = some r →
      r.2.switch_state = (trackerStep (fun _ => none) (lit "room1.mug.mug42") true).2 :=
  ⟨(trackerStep_spec (fun _ => none) (lit "room1.mug.mug42") true).1.mpr (Or.inl rfl),
   ((trackerStep_spec (fun _ => none) (lit "room1.mug.mug42") true).2.1 rfl).1,
   by simp [trackerStep, shouldReport],
   fun r hr => (trackerStep_spec (fun _ => none) (lit "room1.mug.mug42") true).2.2.2
     [(lit "mug", lit "switch_state")] (fun _ _ => none) (fun _ => 7) 1 ⟨true, 1, 42, [255]⟩
     World.mugScenario 255 r rfl rfl rfl (Or.inr rfl) rfl rfl hr⟩

/-! ## The loop over the classes -/

/-- When every call of `sendData` returns, the loop pushes one batch and writes
one line per matching entry, in order. -/
theorem classLoop_all_ok (sendData : SendOracle) (getGRAILTime : Nat → Nat) (fuel : Nat)
    (uri : URI) (switch_on : Bool) (m : List (U16String × U16String)) (w : World)
    (hsend : ∀ k batch, sendData k batch = none) (hfuel : 0 < fuel) :
    classLoop sendData getGRAILTime fuel uri switch_on m w =
      some (none, { w with
        sent := w.sent ++ batchesFor getGRAILTime uri switch_on w.timeReads (matching m uri),
        cout := w.cout ++ linesFor uri switch_on (matching m uri),
        timeReads := w.timeReads + (matching m uri).length }) := by
  induction m generalizing w with
  | nil => simp [classLoop, matching, batchesFor, linesFor]
  | cons e rest ih =>
    by_cases he : hasSegment uri e.1 = true
    · have hm : matching (e :: rest) uri = e :: matching rest uri := by
        simp [matching, List.filter_cons, he]
      simp only [classLoop, he, if_true]
      rw [retryLoop_ok_first _ _ _ _ (hsend _ _) hfuel]
      simp only []
      rw [ih, hm]
      simp [batchesFor, linesFor, List.append_assoc, Nat.add_assoc, Nat.add_comm 1]
    · have hm : matching (e :: rest) uri = matching rest uri := by
        simp [matching, List.filter_cons, he]
      simp only [classLoop, he]
      rw [hm]
      exact ih w

/-- The batches of `batchesFor`, written out entry by entry. -/
theorem batchesFor_eq_enumFrom (getGRAILTime : Nat → Nat) (uri : URI) (b : Nat) (t0 k : Nat)
    (l : List (U16String × U16String)) :
    batchesFor getGRAILTime uri (b == 255) (t0 + k) l =
      (l.enumFrom k).map (fun p =>
        [{ name := p.2.2, creation_date := getGRAILTime (t0 + p.1), uri := uri,
           data := if b = 255 then [1] else [0] }]) := by
  induction l generalizing k with
  | nil => simp [batchesFor]
  | cons e rest ih =>
    simp only [batchesFor, List.enumFrom_cons, List.map_cons]
    rw [Nat.add_assoc, ih (k + 1)]
    by_cases hb : b = 255 <;> simp [makeBatch, pushBackVal, hb]

/-- The lines of `linesFor`, written out entry by entry. -/
theorem linesFor_eq_map (uri : URI) (b : Nat) (l : List (U16String × U16String)) :
    linesFor uri (b == 255) l = l.map (fun p =>
      if b = 255 then toString uri ++ lit " is " ++ toString p.2 ++ lit "\n"
      else toString uri ++ lit " is not " ++ toString p.2 ++ lit "\n") := by
  by_cases hb : b = 255 <;> simp [linesFor, reportLine, hb]

/-! ## The callback on a qualifying sample -/

/-- C5: for a qualifying sample (valid, one byte 0 or 255) that is novel for
the URI `u` its transmitter is mapped to, and with every call of `sendData`
returning, the callback returns normally having handed to `sendData` exactly
one single-element batch per entry of the class→solution map whose class
occurs in `u` as a `.class.` segment, in iteration order and no others; the
update of an entry carries its solution name, `u`, and the one byte 1 for 255
and 0 for 0; and one line `u is <solution>` or `u is not <solution>` is
written per entry. -/
theorem packet_callback_pushes (object_to_solution : List (U16String × U16String))
    (sendData : SendOracle) (getGRAILTime : Nat → Nat) (fuel : Nat) (s : SampleData)
    (w : World) (b : Nat) (u : URI)
    (hv : s.valid = true) (hd : s.sense_data = [b]) (hb : b = 0 ∨ b = 255)
    (hu : w.tx_to_uri (s.physical_layer, s.tx_id) = some u)
    (hnovel : shouldReport w.switch_state u (b == 255) = true)
    (hsend : ∀ k batch, sendData k batch = none) (hfuel : 0 < fuel) :
    packet_callback object_to_solution sendData getGRAILTime fuel s w =
      some (none, { w with
        switch_state := Function.update w.switch_state u (some (b == 255)),
        sent := w.sent ++ (matching object_to_solution u).enum.map (fun p =>
          [{ name := p.2.2, creation_date := getGRAILTime (w.timeReads + p.1), uri := u,
             data := if b = 255 then [1] else [0] }]),
        cout := w.cout ++ (matching object_to_solution u).map (fun p =>
          if b = 255 then toString u ++ lit " is " ++ toString p.2 ++ lit "\n"
          else toString u ++ lit " is not " ++ toString p.2 ++ lit "\n"),
        timeReads := w.timeReads + (matching object_to_solution u).length }) := by
  have hl := lookupUri_present _ _ _ hu
  have ht := touchUri_present _ _ _ hu
  rw [packet_callback_qualifying object_to_solution sendData getGRAILTime fuel s w b hv hd hb,
    hl, ht]
  simp only [trackerStep, hnovel, if_true]
  rw [classLoop_all_ok _ _ _ _ _ _ _ hsend hfuel]
  have hbat := batchesFor_eq_enumFrom getGRAILTime u b w.timeReads 0
    (matching object_to_solution u)
  simp only [Nat.add_zero] at hbat
  simp only [hbat, linesFor_eq_map, List.enum]

/-- Witness for C5: the map `mug ↦ switch_state`, the
URI `room1.mug.mug42` and the byte 255 give exactly one update
`{switch_state, room1.mug.mug42, [1]}` and the line
`room1.mug.mug42 is switch_state`. -/
theorem packet_callback_pushes_witness :
    (packet_callback [(lit "mug", lit "switch_state")] (fun _ _ => none) (fun _ => 7) 1
        ⟨true, 1, 42, [255]⟩ World.mugScenario).map (fun r => (r.1, r.2.sent, r.2.cout)) =
      some (none,
        [[{ name := lit "switch_state", creation_date := 7, uri := lit "room1.mug.mug42",
            data := [1] }]],
        [lit "room1.mug.mug42 is switch_state\n"]) := by
  rw [packet_callback_pushes [(lit "mug", lit "switch_state")] (fun _ _ => none) (fun _ => 7) 1
    ⟨true, 1, 42, [255]⟩ World.mugScenario 255 (lit "room1.mug.mug42") rfl rfl (Or.inr rfl)
    rfl rfl (fun _ _ => rfl) (by decide)]
  decide

/-- The callback on a qualifying sample of a mapped transmitter when every
call of `sendData` returns. -/
theorem packet_callback_step_ok (object_to_solution : List (U16String × U16String))
    (sendData : SendOracle) (getGRAILTime : Nat → Nat) (fuel : Nat)
    (physical_layer tx_id : Nat) (w : World) (b : Nat) (u : URI)
    (hb : b = 0 ∨ b = 255) (hu : w.tx_to_uri (physical_layer, tx_id) = some u)
    (hsend : ∀ k batch, sendData k batch = none) (hfuel : 0 < fuel) :
    packet_callback object_to_solution sendData getGRAILTime fuel
        (sampleOf physical_layer tx_id b) w =
      if shouldReport w.switch_state u (b == 255) then
        some (none, { w with
          switch_state := Function.update w.switch_state u (some (b == 255)),
          sent := w.sent ++
            batchesFor getGRAILTime u (b == 255) w.timeReads (matching object_to_solution u),
          cout := w.cout ++ linesFor u (b == 255) (matching object_to_solution u),
          timeReads := w.timeReads + (matching object_to_solution u).length })
      else some (none, w) := by
  have hu1 : w.tx_to_uri ((sampleOf physical_layer tx_id b).physical_layer,
      (sampleOf physical_layer tx_id b).tx_id) = some u := hu
  rw [packet_callback_qualifying object_to_solution sendData getGRAILTime fuel _ w b rfl rfl hb,
    lookupUri_present _ _ _ hu1, touchUri_present _ _ _ hu1]
  by_cases hs : shouldReport w.switch_state u (b == 255) = true
  · simp only [trackerStep, hs, if_true]
    rw [classLoop_all_ok _ _ _ _ _ _ _ hsend hfuel]
  · simp [trackerStep, hs]

/-- The last of a non-empty list of worlds. -/
theorem getLast_cons_cons (w w1 : World) (ws : List World) :
    (w :: w1 :: ws).getLast? = (w1 :: ws).getLast? := by
  simp [List.getLast?_cons_cons]

/-- Delivery to a tracker that already records the value of byte `p`. -/
theorem deliver_known (object_to_solution : List (U16String × U16String))
    (sendData : SendOracle) (getGRAILTime : Nat → Nat) (fuel : Nat)
    (physical_layer tx_id : Nat) (u : URI)
    (hsend : ∀ k batch, sendData k batch = none) (hfuel : 0 < fuel) :
    ∀ (bs : List Nat) (p : Nat) (w : World), (p = 0 ∨ p = 255) →
      (∀ b ∈ bs, b = 0 ∨ b = 255) → w.tx_to_uri (physical_layer, tx_id) = some u →
      w.switch_state u = some (p == 255) →
      ∃ ws, deliver (packet_callback object_to_solution sendData getGRAILTime fuel)
          (bs.map (sampleOf physical_layer tx_id)) w = some ws ∧
        ws.length = bs.length ∧
        reports u w ws = changes (p :: bs) ∧
        (∀ i, i + 1 < (p :: bs).length → (p :: bs)[i + 1]? = (p :: bs)[i]? →
          (w :: ws)[i + 1]? = (w :: ws)[i]?) ∧
        (w :: ws).getLast?.map (fun x => x.sent.length) =
          some (w.sent.length + (matching object_to_solution u).length * changes (p :: bs)) := by
  intro bs
  induction bs with
  | nil =>
    intro p w _ _ _ _
    exact ⟨[], rfl, rfl, rfl, by simp, by simp [changes]⟩
  | cons b rest ih =>
    intro p w hp hbs hu hst
    have hb : b = 0 ∨ b = 255 := hbs b (by simp)
    have hrest : ∀ x ∈ rest, x = 0 ∨ x = 255 := fun x hx => hbs x (by simp [hx])
    have hstep := packet_callback_step_ok object_to_solution sendData getGRAILTime fuel
      physical_layer tx_id w b u hb hu hsend hfuel
    by_cases hbp : b = p
    · subst hbp
      have hs : shouldReport w.switch_state u (b == 255) = false := by
        simp [shouldReport, hst]
      simp only [hs] at hstep
      obtain ⟨ws, h1, h2, h3, h4, h5⟩ := ih b w hb hrest hu hst
      refine ⟨w :: ws, ?_, by simp [h2], ?_, ?_, ?_⟩
      · simp [deliver, hstep, h1]
      · simp [reports, changes, h3]
      · intro i hi hget
        cases i with
        | zero => simp
        | succ k =>
          have := h4 k (by simpa using hi) (by simpa using hget)
          simpa using this
      · rw [getLast_cons_cons, h5]
        simp [changes]
    · have hne : (b == 255) ≠ (p == 255) := by
        rcases hb with rfl | rfl <;> rcases hp with rfl | rfl <;> simp at hbp ⊢
      have hs : shouldReport w.switch_state u (b == 255) = true := by
        simp only [shouldReport, hst]
        cases hx : (b == 255) <;> cases hy : (p == 255) <;> simp_all
      simp only [hs, if_true] at hstep
      have hlen : ∀ t l, (batchesFor getGRAILTime u (b == 255) t l).length = l.length := by
        intro t l
        induction l generalizing t with
        | nil => rfl
        | cons e r ihl => simp [batchesFor, ihl]
      generalize hw1 : ({ w with
          switch_state := Function.update w.switch_state u (some (b == 255)),
          sent := w.sent ++
            batchesFor getGRAILTime u (b == 255) w.timeReads (matching object_to_solution u),
          cout := w.cout ++ linesFor u (b == 255) (matching object_to_solution u),
          timeReads := w.timeReads + (matching object_to_solution u).length } : World) = w1
        at hstep
      have e1 : w1.tx_to_uri (physical_layer, tx_id) = some u := by rw [← hw1]; exact hu
      have e2 : w1.switch_state u = some (b == 255) := by rw [← hw1]; simp
      have e3 : w1.sent.length = w.sent.length + (matching object_to_solution u).length := by
        rw [← hw1]; simp [hlen]
      have hc : changes (p :: b :: rest) = 1 + changes (b :: rest) := by
        have : ¬ p = b := fun h => hbp h.symm
        simp [changes, this]
      obtain ⟨ws, h1, h2, h3, h4, h5⟩ := ih b w1 hb hrest e1 e2
      refine ⟨w1 :: ws, ?_, by simp [h2], ?_, ?_, ?_⟩
      · simp [deliver, hstep, h1]
      · simp only [reports, h3, hc, e2, hst]
        have : ¬ some (b == 255) = some (p == 255) := fun h => hne (Option.some.inj h)
        simp [this]
      · intro i hi hget
        cases i with
        | zero =>
          simp at hget
          exact absurd hget hbp
        | succ k =>
          have := h4 k (by simpa using hi) (by simpa using hget)
          simpa using this
      · rw [getLast_cons_cons, h5, hc, e3]
        simp [Nat.mul_add, Nat.add_assoc]

/-- In a sequence in which every byte differs from the one before, every
position but the first is a change. -/
theorem changes_alternating (bs : List Nat) (h : bs.Chain' (· ≠ ·)) :
    (if bs = [] then 0 else 1) + changes bs = bs.length := by
  induction bs with
  | nil => rfl
  | cons a rest ih =>
    cases rest with
    | nil => simp [changes]
    | cons b rest2 =>
      rw [List.chain'_cons] at h
      have := ih h.2
      simp [changes, h.1] at this ⊢
      omega

/-- Whatever `sendData` does, a callback that finishes on a qualifying sample
of a mapped transmitter leaves the table alone and the tracker as the step of
lines 137–138 makes it, and leaves the whole world alone if the sample is not
novel. -/
theorem packet_callback_tracker (object_to_solution : List (U16String × U16String))
    (sendData : SendOracle) (getGRAILTime : Nat → Nat) (fuel : Nat)
    (physical_layer tx_id : Nat) (w : World) (b : Nat) (u : URI) (r : Option Exn × World)
    (hb : b = 0 ∨ b = 255) (hu : w.tx_to_uri (physical_layer, tx_id) = some u)
    (h : packet_callback object_to_solution sendData getGRAILTime fuel
      (sampleOf physical_layer tx_id b) w = some r) :
    r.2.tx_to_uri = w.tx_to_uri ∧
      r.2.switch_state = (trackerStep w.switch_state u (b == 255)).2 ∧
      (shouldReport w.switch_state u (b == 255) = false → r.2 = w) := by
  have hu1 : w.tx_to_uri ((sampleOf physical_layer tx_id b).physical_layer,
      (sampleOf physical_layer tx_id b).tx_id) = some u := hu
  rw [packet_callback_qualifying object_to_solution sendData getGRAILTime fuel _ w b rfl rfl hb,
    lookupUri_present _ _ _ hu1, touchUri_present _ _ _ hu1] at h
  by_cases hs : shouldReport w.switch_state u (b == 255) = true
  · simp only [trackerStep, hs, if_true] at h ⊢
    have hf := classLoop_frame _ _ _ _ _ _ _ _ h
    exact ⟨hf.2, hf.1, fun hn => by simp at hn⟩
  · simp only [trackerStep, hs] at h ⊢
    simp at h
    subst h
    exact ⟨rfl, rfl, fun _ => rfl⟩

/-- Delivery to a tracker that records the value of byte `p`, whatever
`sendData` does: if every callback finishes, the reports are the changes. -/
theorem deliver_counts (object_to_solution : List (U16String × U16String))
    (sendData : SendOracle) (getGRAILTime : Nat → Nat) (fuel : Nat)
    (physical_layer tx_id : Nat) (u : URI) :
    ∀ (bs : List Nat) (p : Nat) (w : World) (ws : List World), (p = 0 ∨ p = 255) →
      (∀ b ∈ bs, b = 0 ∨ b = 255) → w.tx_to_uri (physical_layer, tx_id) = some u →
      w.switch_state u = some (p == 255) →
      deliver (packet_callback object_to_solution sendData getGRAILTime fuel)
          (bs.map (sampleOf physical_layer tx_id)) w = some ws →
      ws.length = bs.length ∧
        reports u w ws = changes (p :: bs) ∧
        (∀ i, i + 1 < (p :: bs).length → (p :: bs)[i + 1]? = (p :: bs)[i]? →
          (w :: ws)[i + 1]? = (w :: ws)[i]?) := by
  intro bs
  induction bs with
  | nil =>
    intro p w ws _ _ _ _ h
    simp only [List.map_nil, deliver, Option.some.injEq] at h
    subst h
    exact ⟨rfl, rfl, by simp⟩
  | cons b rest ih =>
    intro p w ws hp hbs hu hst h
    have hb : b = 0 ∨ b = 255 := hbs b (by simp)
    have hrest : ∀ x ∈ rest, x = 0 ∨ x = 255 := fun x hx => hbs x (by simp [hx])
    simp only [List.map_cons, deliver] at h
    cases hcb : packet_callback object_to_solution sendData getGRAILTime fuel
        (sampleOf physical_layer tx_id b) w with
    | none => simp [hcb] at h
    | some r =>
      obtain ⟨o, w1⟩ := r
      simp only [hcb] at h
      cases hd : deliver (packet_callback object_to_solution sendData getGRAILTime fuel)
          (rest.map (sampleOf physical_layer tx_id)) w1 with
      | none => simp [hd] at h
      | some ws1 =>
        simp only [hd, Option.map_some', Option.some.injEq] at h
        subst h
        obtain ⟨t1, t2, t3⟩ := packet_callback_tracker object_to_solution sendData getGRAILTime
          fuel physical_layer tx_id w b u (o, w1) hb hu hcb
        simp only at t1 t2 t3
        have e1 : w1.tx_to_uri (physical_layer, tx_id) = some u := by rw [t1]; exact hu
        by_cases hbp : b = p
        · subst hbp
          have hs : shouldReport w.switch_state u (b == 255) = false := by
            simp [shouldReport, hst]
          have hw : w1 = w := t3 hs
          subst hw
          obtain ⟨h2, h3, h4⟩ := ih b w1 ws1 hb hrest hu hst hd
          refine ⟨by simp [h2], by simp [reports, changes, h3], ?_⟩
          intro i hi hget
          cases i with
          | zero => simp
          | succ k =>
            have := h4 k (by simpa using hi) (by simpa using hget)
            simpa using this
        · have hne : (b == 255) ≠ (p == 255) := by
            rcases hb with rfl | rfl <;> rcases hp with rfl | rfl <;> simp at hbp ⊢
          have hs : shouldReport w.switch_state u (b == 255) = true := by
            simp only [shouldReport, hst]
            cases hx : (b == 255) <;> cases hy : (p == 255) <;> simp_all
          have e2 : w1.switch_state u = some (b == 255) := by
            rw [t2]; simp [trackerStep, hs]
          have hc : changes (p :: b :: rest) = 1 + changes (b :: rest) := by
            have : ¬ p = b := fun h => hbp h.symm
            simp [changes, this]
          obtain ⟨h2, h3, h4⟩ := ih b w1 ws1 hb hrest e1 e2 hd
          refine ⟨by simp [h2], ?_, ?_⟩
          · simp only [reports, h3, hc, e2, hst]
            have : ¬ some (b == 255) = some (p == 255) := fun h => hne (Option.some.inj h)
            simp [this]
          · intro i hi hget
            cases i with
            | zero =>
              simp at hget
              exact absurd hget hbp
            | succ k =>
              have := h4 k (by simpa using hi) (by simpa using hget)
              simpa using this

/-- C3: samples of one transmitter mapped to the URI `u`, each valid with one
byte 0 or 255, delivered in order to a tracker with no entry for `u`.
Whatever `sendData` does, if every callback finishes then the number of
samples judged novel is 1 for the first sample plus the number of positions
whose byte differs from the previous one; hence a sequence that alternates
strictly is reported once per sample, and a sample that repeats the previous
byte leaves the world exactly as it was.  When every call of `sendData`
returns, every callback does finish, and the number of batches handed to
`sendData` is that count times the number of classes matching `u`. -/
theorem deliver_reports (object_to_solution : List (U16String × U16String))
    (sendData : SendOracle) (getGRAILTime : Nat → Nat) (fuel : Nat)
    (physical_layer tx_id : Nat) (u : URI) (bs : List Nat) (w : World)
    (hbytes : ∀ b ∈ bs, b = 0 ∨ b = 255)
    (hu : w.tx_to_uri (physical_layer, tx_id) = some u)
    (hfresh : w.switch_state u = none) :
    (∀ ws, deliver (packet_callback object_to_solution sendData getGRAILTime fuel)
        (bs.map (sampleOf physical_layer tx_id)) w = some ws →
      ws.length = bs.length ∧
      reports u w ws = (if bs = [] then 0 else 1) + changes bs ∧
      (bs.Chain' (· ≠ ·) → reports u w ws = bs.length) ∧
      (∀ i, i + 1 < bs.length → bs[i + 1]? = bs[i]? → ws[i + 1]? = ws[i]?)) ∧
    ((∀ k batch, sendData k batch = none) → 0 < fuel →
      ∃ ws, deliver (packet_callback object_to_solution sendData getGRAILTime fuel)
          (bs.map (sampleOf physical_layer tx_id)) w = some ws ∧
        (w :: ws).getLast?.map (fun x => x.sent.length) =
          some (w.sent.length + (matching object_to_solution u).length *
            ((if bs = [] then 0 else 1) + changes bs))) := by
  cases bs with
  | nil =>
    refine ⟨fun ws h => ?_, fun _ _ => ⟨[], rfl, by simp [changes]⟩⟩
    simp only [List.map_nil, deliver, Option.some.injEq] at h
    subst h
    exact ⟨rfl, rfl, fun _ => rfl, by simp⟩
  | cons b rest =>
    have hb : b = 0 ∨ b = 255 := hbytes b (by simp)
    have hrest : ∀ x ∈ rest, x = 0 ∨ x = 255 := fun x hx => hbytes x (by simp [hx])
    have hs : shouldReport w.switch_state u (b == 255) = true := by
      simp [shouldReport, hfresh]
    refine ⟨fun ws h => ?_, fun hsend hfuel => ?_⟩
    · simp only [List.map_cons, deliver] at h
      cases hcb : packet_callback object_to_solution sendData getGRAILTime fuel
          (sampleOf physical_layer tx_id b) w with
      | none => simp [hcb] at h
      | some r =>
        obtain ⟨o, w1⟩ := r
        simp only [hcb] at h
        cases hd : deliver (packet_callback object_to_solution sendData getGRAILTime fuel)
            (rest.map (sampleOf physical_layer tx_id)) w1 with
        | none => simp [hd] at h
        | some ws1 =>
          simp only [hd, Option.map_some', Option.some.injEq] at h
          subst h
          obtain ⟨t1, t2, _⟩ := packet_callback_tracker object_to_solution sendData
            getGRAILTime fuel physical_layer tx_id w b u (o, w1) hb hu hcb
          simp only at t1 t2
          have e1 : w1.tx_to_uri (physical_layer, tx_id) = some u := by rw [t1]; exact hu
          have e2 : w1.switch_state u = some (b == 255) := by
            rw [t2]; simp [trackerStep, hs]
          obtain ⟨h2, h3, h4⟩ := deliver_counts object_to_solution sendData getGRAILTime fuel
            physical_layer tx_id u rest b w1 ws1 hb hrest e1 e2 hd
          have hcount : reports u w (w1 :: ws1) = 1 + changes (b :: rest) := by
            simp [reports, h3, e2, hfresh]
          refine ⟨by simp [h2], by simpa using hcount, ?_, h4⟩
          intro hch
          rw [hcount]
          simpa using changes_alternating (b :: rest) hch
    · have hstep := packet_callback_step_ok object_to_solution sendData getGRAILTime fuel
        physical_layer tx_id w b u hb hu hsend hfuel
      simp only [hs, if_true] at hstep
      have hlen : ∀ t l, (batchesFor getGRAILTime u (b == 255) t l).length = l.length := by
        intro t l
        induction l generalizing t with
        | nil => rfl
        | cons e r ihl => simp [batchesFor, ihl]
      generalize hw1 : ({ w with
          switch_state := Function.update w.switch_state u (some (b == 255)),
          sent := w.sent ++
            batchesFor getGRAILTime u (b == 255) w.timeReads (matching object_to_solution u),
          cout := w.cout ++ linesFor u (b == 255) (matching object_to_solution u),
          timeReads := w.timeReads + (matching object_to_solution u).length } : World) = w1
        at hstep
      have e1 : w1.tx_to_uri (physical_layer, tx_id) = some u := by rw [← hw1]; exact hu
      have e2 : w1.switch_state u = some (b == 255) := by rw [← hw1]; simp
      have e3 : w1.sent.length = w.sent.length + (matching object_to_solution u).length := by
        rw [← hw1]; simp [hlen]
      obtain ⟨ws, h1, _, _, _, h5⟩ := deliver_known object_to_solution sendData getGRAILTime
        fuel physical_layer tx_id u hsend hfuel rest b w1 hb hrest e1 e2
      refine ⟨w1 :: ws, ?_, ?_⟩
      · simp [deliver, hstep, h1]
      · rw [getLast_cons_cons, h5, e3]
        simp [Nat.mul_add, Nat.add_assoc]

/-- Witness for C3: the bytes 255, 255, 0, 255 are reported
three times, and three batches are sent. -/
theorem deliver_reports_witness :
    ∃ ws, deliver (packet_callback [(lit "mug", lit "switch_state")] (fun _ _ => none)
          (fun _ => 7) 1) ([255, 255, 0, 255].map (sampleOf 1 42)) World.mugScenario = some ws ∧
      reports (lit "room1.mug.mug42") World.mugScenario ws = 3 ∧
      (World.mugScenario :: ws).getLast?.map (fun x => x.sent.length) = some 3 := by
  have key := deliver_reports [(lit "mug", lit "switch_state")]
    (fun _ _ => none) (fun _ => 7) 1 1 42 (lit "room1.mug.mug42") [255, 255, 0, 255]
    World.mugScenario (by decide) rfl rfl
  obtain ⟨ws, h1, h6⟩ := key.2 (fun _ _ => rfl) (by decide)
  obtain ⟨_, h3, _, _⟩ := key.1 ws h1
  refine ⟨ws, h1, ?_, ?_⟩
  · rw [h3]; decide
  · rw [h6]; decide


/-! ## The matcher decides the language -/

/-- An expression is nullable exactly when it matches the empty string. -/
theorem Ere.nullable_iff (r : Ere) : r.nullable = true ↔ [] ∈ r.lang := by
  induction r with
  | nothing => simp [Ere.nullable, Ere.lang, Language.not_mem_zero]
  | eps => simp [Ere.nullable, Ere.lang, Language.mem_one]
  | chr c =>
    simp only [Ere.nullable, Ere.lang]
    constructor
    · intro h; cases h
    · intro h; cases h
  | any =>
    simp only [Ere.nullable, Ere.lang]
    constructor
    · intro h; cases h
    · rintro ⟨c, hc⟩; cases hc
  | alt a b iha ihb => simp [Ere.nullable, Ere.lang, Language.mem_add, iha, ihb]
  | seq a b iha ihb =>
    simp only [Ere.nullable, Ere.lang, Bool.and_eq_true, iha, ihb, Language.mem_mul]
    constructor
    · rintro ⟨h1, h2⟩
      exact ⟨[], h1, [], h2, rfl⟩
    · rintro ⟨u, hu, v, hv, huv⟩
      obtain ⟨rfl, rfl⟩ := List.append_eq_nil.mp huv
      exact ⟨hu, hv⟩
  | star a _ => simp [Ere.nullable, Ere.lang, Language.nil_mem_kstar]

/-- A string with a first code unit lies in a product of languages when the
first factor takes a non-empty prefix, or is skipped. -/
theorem cons_mem_mul (A B : Language Nat) (x : Nat) (w : List Nat) :
    x :: w ∈ A * B ↔
      (∃ u v, w = u ++ v ∧ x :: u ∈ A ∧ v ∈ B) ∨ ([] ∈ A ∧ x :: w ∈ B) := by
  rw [Language.mem_mul]
  constructor
  · rintro ⟨a, ha, b, hb, hab⟩
    cases a with
    | nil => exact Or.inr ⟨ha, by simpa using hab ▸ hb⟩
    | cons y u =>
      simp only [List.cons_append, List.cons.injEq] at hab
      obtain ⟨rfl, rfl⟩ := hab
      exact Or.inl ⟨u, b, rfl, ha, hb⟩
  · rintro (⟨u, v, rfl, hu, hv⟩ | ⟨h1, h2⟩)
    · exact ⟨x :: u, hu, v, hv, rfl⟩
    · exact ⟨[], h1, x :: w, h2, rfl⟩

/-- A string with a first code unit lies in a Kleene star when it starts with a
non-empty member and goes on in the star. -/
theorem cons_mem_kstar (A : Language Nat) (x : Nat) (w : List Nat) :
    x :: w ∈ KStar.kstar A ↔ ∃ u v, w = u ++ v ∧ x :: u ∈ A ∧ v ∈ KStar.kstar A := by
  constructor
  · intro h
    rw [Language.mem_kstar_iff_exists_nonempty] at h
    obtain ⟨S, hS, hall⟩ := h
    cases S with
    | nil => simp at hS
    | cons t S1 =>
      have ht := hall t (by simp)
      cases t with
      | nil => exact absurd rfl ht.2
      | cons y u =>
        simp only [List.flatten_cons, List.cons_append, List.cons.injEq] at hS
        obtain ⟨rfl, rfl⟩ := hS
        refine ⟨u, S1.flatten, rfl, ht.1, ?_⟩
        exact Language.join_mem_kstar fun z hz => (hall z (by simp [hz])).1
  · rintro ⟨u, v, rfl, hu, hv⟩
    rw [← Language.one_add_self_mul_kstar_eq_kstar, Language.mem_add]
    exact Or.inr (Language.append_mem_mul hu hv)

/-- The derivative by `x` matches `w` exactly when the expression matches `x :: w`. -/
theorem Ere.deriv_iff (r : Ere) (x : Nat) (w : List Nat) :
    w ∈ (r.deriv x).lang ↔ x :: w ∈ r.lang := by
  induction r generalizing w with
  | nothing => simp [Ere.deriv, Ere.lang, Language.not_mem_zero]
  | eps => simp [Ere.deriv, Ere.lang, Language.not_mem_zero, Language.mem_one]
  | chr c =>
    simp only [Ere.deriv, Ere.lang]
    by_cases hc : c = x
    · subst hc
      simp only [if_true, Ere.lang, Language.mem_one]
      constructor
      · rintro rfl; rfl
      · intro h; cases h; rfl
    · simp only [hc, if_false, Ere.lang]
      constructor
      · intro h; exact absurd h (Language.not_mem_zero _)
      · intro h; cases h; exact absurd rfl hc
  | any =>
    simp only [Ere.deriv, Ere.lang, Language.mem_one]
    constructor
    · rintro rfl; exact ⟨x, rfl⟩
    · rintro ⟨c, hc⟩; cases hc; rfl
  | alt a b iha ihb => simp [Ere.deriv, Ere.lang, Language.mem_add, iha, ihb]
  | seq a b iha ihb =>
    rw [Ere.lang, cons_mem_mul]
    by_cases hn : a.nullable = true
    · simp only [Ere.deriv, hn, if_true, Ere.lang, Language.mem_add, Language.mem_mul, ihb]
      rw [← Ere.nullable_iff, hn]
      constructor
      · rintro (⟨u, hu, v, hv, rfl⟩ | h)
        · exact Or.inl ⟨u, v, rfl, (iha u).mp hu, hv⟩
        · exact Or.inr ⟨rfl, h⟩
      · rintro (⟨u, v, rfl, hu, hv⟩ | ⟨_, h⟩)
        · exact Or.inl ⟨u, (iha u).mpr hu, v, hv, rfl⟩
        · exact Or.inr h
    · simp only [Ere.deriv, hn, Ere.lang, Language.mem_mul]
      rw [← Ere.nullable_iff]
      constructor
      · rintro ⟨u, hu, v, hv, rfl⟩
        exact Or.inl ⟨u, v, rfl, (iha u).mp hu, hv⟩
      · rintro (⟨u, v, rfl, hu, hv⟩ | ⟨h, _⟩)
        · exact ⟨u, (iha u).mpr hu, v, hv, rfl⟩
        · exact absurd h hn
  | star a iha =>
    rw [Ere.lang, cons_mem_kstar]
    simp only [Ere.deriv, Ere.lang, Language.mem_mul]
    constructor
    · rintro ⟨u, hu, v, hv, rfl⟩
      exact ⟨u, v, rfl, (iha u).mp hu, hv⟩
    · rintro ⟨u, v, rfl, hu, hv⟩
      exact ⟨u, (iha u).mpr hu, v, hv, rfl⟩

/-- The matcher accepts exactly the strings of the language. -/
theorem Ere.rmatch_iff (r : Ere) (w : List Nat) : r.rmatch w = true ↔ w ∈ r.lang := by
  induction w generalizing r with
  | nil => simpa [Ere.rmatch] using r.nullable_iff
  | cons x rest ih => rw [Ere.rmatch, ih, Ere.deriv_iff]

/-! ## What `desired_ids` compiles to -/

/-- `find` succeeds exactly when the needle occurs in the string. -/
theorem find_isSome_iff (s pat : U16String) : (find s pat).isSome = true ↔ pat <:+: s := by
  induction s with
  | nil =>
    cases pat with
    | nil => simp [find]
    | cons a l => simp [find, List.isPrefixOf]
  | cons c rest ih =>
    rw [find, List.infix_cons_iff, ← ih]
    by_cases hp : pat.isPrefixOf (c :: rest) = true
    · simp [hp, List.isPrefixOf_iff_prefix.mp hp]
    · have : ¬ pat <+: c :: rest := fun h => hp (List.isPrefixOf_iff_prefix.mpr h)
      simp [hp, this]

/-- The test of line 141 holds exactly when `.class.` occurs in the URI. -/
theorem hasSegment_iff (uri : URI) (obj_class : U16String) :
    hasSegment uri obj_class = true ↔
      ∃ before after, uri = before ++ dot :: obj_class ++ dot :: after := by
  rw [hasSegment, find_isSome_iff]
  constructor
  · rintro ⟨before, after, h⟩
    exact ⟨before, after, by simp [← h, segment]⟩
  · rintro ⟨before, after, h⟩
    exact ⟨before, after, by simp [h, segment]⟩

/-- Reading a concatenation is reading its parts in turn. -/
theorem readAll_append (a b : List Nat) (r : Reader) :
    readAll (a ++ b) r = (readAll a r).bind (readAll b) := by
  induction a generalizing r with
  | nil => simp [readAll]
  | cons c cs ih =>
    simp only [List.cons_append, readAll]
    cases readChar r c with
    | none => simp
    | some r1 => simpa using ih r1

/-- An ordinary character is read as a character piece. -/
theorem readChar_ordinary (r : Reader) (c : Nat) (hr : r.escaped = false)
    (hc : ereSpecial c = false) : readChar r c = some (r.push (Ere.chr c)) := by
  simp only [ereSpecial, Bool.or_eq_false_iff, beq_eq_false_iff_ne, ne_eq] at hc
  obtain ⟨⟨⟨⟨⟨⟨⟨⟨⟨⟨⟨h46, h91⟩, h92⟩, h40⟩, h41⟩, h42⟩, h43⟩, h63⟩, h123⟩, h124⟩, h94⟩, h36⟩ := hc
  simp [readChar, hr, h46, h91, h92, h40, h41, h42, h43, h63, h123, h124, h94, h36]

/-- A run of ordinary characters is read as that many character pieces. -/
theorem readAll_ordinary (name : List Nat) (r : Reader) (hr : r.escaped = false)
    (h : ∀ c ∈ name, ereSpecial c = false) :
    readAll name r = some { r with
      cur := { r.cur with pieces := (name.map Ere.chr).reverse ++ r.cur.pieces } } := by
  induction name generalizing r with
  | nil => simp [readAll]
  | cons c cs ih =>
    rw [readAll, readChar_ordinary r c hr (h c (by simp))]
    simp only []
    rw [ih _ rfl (fun x hx => h x (by simp [hx]))]
    simp [Reader.push, hr]

/-- The code units of the fixed parts of the filter. -/
theorem lit_parts :
    lit ".*\\." = [46, 42, 92, 46] ∧ lit "\\..*" = [92, 46, 46, 42] ∧ lit "(" = [40] ∧
      lit ")\\..*" = [41, 92, 46, 46, 42] ∧ lit "|" = [124] := by
  decide

/-- Reading the closing part `\..*` of the filter. -/
theorem readAll_tail (r : Reader) (hr : r.escaped = false) :
    readAll [92, 46, 46, 42] r = some { r with
      cur := { r.cur with pieces := Ere.star Ere.any :: Ere.chr 46 :: r.cur.pieces } } := by
  simp [readAll, readChar, Reader.push, Reader.duplicate, hr, ereSpecial]

/-- Reading the opening part `.*\.` of the filter. -/
theorem readAll_head :
    readAll [46, 42, 92, 46] { cur := ⟨[], []⟩, stack := [], escaped := false } =
      some { cur := ⟨[], [Ere.chr 46, Ere.star Ere.any]⟩, stack := [], escaped := false } := by
  decide

/-- The filter of a single class compiles to `.*`, a dot, the characters of
the class, a dot, `.*`. -/
theorem parseEre_single (name : List Nat) (h : ∀ c ∈ name, ereSpecial c = false) :
    parseEre (lit ".*\\." ++ name ++ lit "\\..*") =
      some (mkAlt [mkSeq ([Ere.star Ere.any, Ere.chr 46] ++ name.map Ere.chr ++
        [Ere.chr 46, Ere.star Ere.any])]) := by
  rw [lit_parts.1, lit_parts.2.1, parseEre, List.append_assoc, readAll_append, readAll_head,
    Option.some_bind, readAll_append, readAll_ordinary _ _ rfl h, Option.some_bind,
    readAll_tail _ rfl]
  simp [Frame.close]

/-- The loop of lines 186–192, started past the first entry. -/
theorem appendClasses_false (acc : U16String) (rest : List (U16String × U16String)) :
    appendClasses acc false rest =
      acc ++ rest.foldr (fun x tail => 124 :: (x.1 ++ tail)) [] := by
  induction rest generalizing acc with
  | nil => simp [appendClasses]
  | cons e rest ih =>
    rw [appendClasses, ih]
    simp [lit_parts.2.2.2.2]

/-- Reading `|name` for each further class: the group read so far gains one
branch per class. -/
theorem readAll_barred (rest : List (U16String × U16String)) (r : Reader)
    (hr : r.escaped = false) (h : ∀ e ∈ rest, ∀ c ∈ e.1, ereSpecial c = false) :
    ∃ cur, readAll (rest.foldr (fun x tail => 124 :: (x.1 ++ tail)) []) r =
        some { r with cur := cur } ∧
      cur.close = mkAlt (r.cur.branches.reverse ++ [mkSeq r.cur.pieces.reverse] ++
        rest.map fun x => mkSeq (x.1.map Ere.chr)) := by
  induction rest generalizing r with
  | nil => exact ⟨r.cur, by simp [readAll], by simp [Frame.close]⟩
  | cons e rest ih =>
    have hbar : readChar r 124 =
        some { r with cur := ⟨mkSeq r.cur.pieces.reverse :: r.cur.branches, []⟩ } := by
      simp [readChar, hr]
    obtain ⟨cur, h1, h2⟩ := ih
      { r with cur := ⟨mkSeq r.cur.pieces.reverse :: r.cur.branches,
                       (e.1.map Ere.chr).reverse⟩ } hr
      (fun x hx => h x (by simp [hx]))
    refine ⟨cur, ?_, ?_⟩
    · simp only [List.foldr_cons]
      rw [readAll, hbar]
      simp only []
      rw [readAll_append, readAll_ordinary e.1
        { r with cur := ⟨mkSeq r.cur.pieces.reverse :: r.cur.branches, []⟩ } hr (h e (by simp)),
        Option.some_bind]
      simpa using h1
    · rw [h2]
      simp

/-- Reading the opening part `.*\.(` of the filter of several classes. -/
theorem readAll_head_group :
    readAll [46, 42, 92, 46, 40] { cur := ⟨[], []⟩, stack := [], escaped := false } =
      some { cur := ⟨[], []⟩, stack := [⟨[], [Ere.chr 46, Ere.star Ere.any]⟩],
             escaped := false } := by
  decide

/-- The filter of lines 185–193 compiles to `.*`, a dot, the alternation of
the classes, a dot, `.*`. -/
theorem parseEre_many (e : U16String × U16String) (rest : List (U16String × U16String))
    (h : ∀ x ∈ e :: rest, ∀ c ∈ x.1, ereSpecial c = false) :
    parseEre (appendClasses (lit ".*\\." ++ lit "(") true (e :: rest) ++ lit ")\\..*") =
      some (mkAlt [mkSeq [Ere.star Ere.any, Ere.chr 46,
        mkAlt ((e :: rest).map fun x => mkSeq (x.1.map Ere.chr)),
        Ere.chr 46, Ere.star Ere.any]]) := by
  obtain ⟨cur, h1, h2⟩ := readAll_barred rest
    { cur := ⟨[], (e.1.map Ere.chr).reverse⟩,
      stack := [⟨[], [Ere.chr 46, Ere.star Ere.any]⟩], escaped := false } rfl
    (fun x hx => h x (by simp [hx]))
  have hin : appendClasses (lit ".*\\." ++ lit "(") true (e :: rest) ++ lit ")\\..*" =
      [46, 42, 92, 46, 40] ++ (e.1 ++ (rest.foldr (fun x tail => 124 :: (x.1 ++ tail)) [] ++
        (41 :: [92, 46, 46, 42]))) := by
    rw [appendClasses, appendClasses_false, lit_parts.1, lit_parts.2.2.1, lit_parts.2.2.2.1]
    simp
  have hclose : readChar
      { cur := cur, stack := [⟨[], [Ere.chr 46, Ere.star Ere.any]⟩], escaped := false } 41 =
      some { cur := ⟨[], [cur.close, Ere.chr 46, Ere.star Ere.any]⟩, stack := [],
             escaped := false } := by
    simp [readChar]
  rw [hin, parseEre, readAll_append, readAll_head_group, Option.some_bind, readAll_append,
    readAll_ordinary _ _ rfl (h e (by simp)), Option.some_bind, readAll_append]
  simp only [List.append_nil]
  rw [h1, Option.some_bind, readAll, hclose]
  simp only []
  rw [readAll_tail _ rfl]
  have h3 : cur.close = mkAlt ((e :: rest).map fun x => mkSeq (x.1.map Ere.chr)) := by
    rw [h2]; simp
  simp only [h3]
  simp [Frame.close]

/-! ## The language of the compiled filter -/

/-- Membership in the language of an alternation of branches. -/
theorem mem_lang_mkAlt (branches : List Ere) (w : List Nat) :
    w ∈ (mkAlt branches).lang ↔ ∃ b ∈ branches, w ∈ b.lang := by
  induction branches with
  | nil => simp [mkAlt, Ere.lang, Language.not_mem_zero]
  | cons b rest ih =>
    have : mkAlt (b :: rest) = Ere.alt b (mkAlt rest) := rfl
    rw [this, Ere.lang, Language.mem_add, ih]
    simp

/-- Membership in the language of a run of characters followed by more pieces. -/
theorem mem_lang_chars (name : List Nat) (tail : List Ere) (w : List Nat) :
    w ∈ (mkSeq (name.map Ere.chr ++ tail)).lang ↔
      ∃ v, w = name ++ v ∧ v ∈ (mkSeq tail).lang := by
  induction name generalizing w with
  | nil => simp
  | cons c cs ih =>
    have : mkSeq ((c :: cs).map Ere.chr ++ tail) =
        Ere.seq (Ere.chr c) (mkSeq (cs.map Ere.chr ++ tail)) := rfl
    rw [this, Ere.lang, Language.mem_mul]
    constructor
    · rintro ⟨a, ha, b, hb, rfl⟩
      obtain ⟨v, rfl, hv⟩ := (ih b).mp hb
      have ha1 : a = [c] := ha
      exact ⟨v, by simp [ha1], hv⟩
    · rintro ⟨v, rfl, hv⟩
      exact ⟨[c], rfl, cs ++ v, (ih _).mpr ⟨v, rfl, hv⟩, rfl⟩

/-- The expression `.*` matches every string. -/
theorem mem_lang_star_any (w : List Nat) : w ∈ (Ere.star Ere.any).lang := by
  rw [Ere.lang, Language.mem_kstar]
  refine ⟨w.map fun c => [c], ?_, ?_⟩
  · induction w with
    | nil => rfl
    | cons c cs ih => simpa using ih
  · intro y hy
    obtain ⟨c, _, rfl⟩ := List.mem_map.mp hy
    exact ⟨c, rfl⟩

/-- The closing pieces `\.` `.*` match the strings that start with a dot. -/
theorem mem_lang_dot_rest (v : List Nat) :
    v ∈ (mkSeq [Ere.chr 46, Ere.star Ere.any]).lang ↔ ∃ after, v = 46 :: after := by
  have : mkSeq [Ere.chr 46, Ere.star Ere.any] =
      Ere.seq (Ere.chr 46) (Ere.seq (Ere.star Ere.any) Ere.eps) := rfl
  rw [this, Ere.lang, Language.mem_mul]
  constructor
  · rintro ⟨a, ha, b, _, rfl⟩
    have ha1 : a = [46] := ha
    exact ⟨b, by simp [ha1]⟩
  · rintro ⟨after, rfl⟩
    refine ⟨[46], rfl, after, ?_, rfl⟩
    rw [Ere.lang, Language.mem_mul]
    exact ⟨after, mem_lang_star_any after, [], by simp [Ere.lang, Language.mem_one], by simp⟩

/-- What the compiled filter of a single class matches. -/
theorem mem_lang_single (name w : List Nat) :
    w ∈ (mkAlt [mkSeq ([Ere.star Ere.any, Ere.chr 46] ++ name.map Ere.chr ++
        [Ere.chr 46, Ere.star Ere.any])]).lang ↔
      ∃ before after, w = before ++ dot :: name ++ dot :: after := by
  have hshape : mkSeq ([Ere.star Ere.any, Ere.chr 46] ++ name.map Ere.chr ++
      [Ere.chr 46, Ere.star Ere.any]) =
      Ere.seq (Ere.star Ere.any) (mkSeq ([46].map Ere.chr ++
        (name.map Ere.chr ++ [Ere.chr 46, Ere.star Ere.any]))) := by
    simp [mkSeq]
  rw [mem_lang_mkAlt]
  simp only [List.mem_singleton, exists_eq_left]
  rw [hshape, Ere.lang, Language.mem_mul]
  constructor
  · rintro ⟨a, _, b, hb, rfl⟩
    obtain ⟨v, rfl, hv⟩ := (mem_lang_chars _ _ _).mp hb
    obtain ⟨v2, rfl, hv2⟩ := (mem_lang_chars _ _ _).mp hv
    obtain ⟨after, rfl⟩ := (mem_lang_dot_rest _).mp hv2
    exact ⟨a, after, by simp [dot]⟩
  · rintro ⟨before, after, rfl⟩
    refine ⟨before, mem_lang_star_any _, dot :: name ++ dot :: after, ?_, by simp⟩
    refine (mem_lang_chars _ _ _).mpr ⟨name ++ dot :: after, by simp [dot], ?_⟩
    exact (mem_lang_chars _ _ _).mpr ⟨dot :: after, rfl, (mem_lang_dot_rest _).mpr ⟨after, rfl⟩⟩

/-- A run of characters matches itself only. -/
theorem mem_lang_name (name w : List Nat) : w ∈ (mkSeq (name.map Ere.chr)).lang ↔ w = name := by
  have h := mem_lang_chars name [] w
  simp only [List.append_nil] at h
  rw [h]
  constructor
  · rintro ⟨v, rfl, hv⟩
    have hv1 : v = [] := hv
    simp [hv1]
  · rintro rfl
    exact ⟨[], by simp, rfl⟩

/-- What the compiled filter of several classes matches. -/
theorem mem_lang_many (m : List (U16String × U16String)) (w : List Nat) :
    w ∈ (mkAlt [mkSeq [Ere.star Ere.any, Ere.chr 46,
        mkAlt (m.map fun x => mkSeq (x.1.map Ere.chr)),
        Ere.chr 46, Ere.star Ere.any]]).lang ↔
      ∃ e ∈ m, ∃ before after, w = before ++ dot :: e.1 ++ dot :: after := by
  have hshape : mkSeq [Ere.star Ere.any, Ere.chr 46,
      mkAlt (m.map fun x => mkSeq (x.1.map Ere.chr)), Ere.chr 46, Ere.star Ere.any] =
      Ere.seq (Ere.star Ere.any) (Ere.seq (Ere.chr 46)
        (Ere.seq (mkAlt (m.map fun x => mkSeq (x.1.map Ere.chr)))
          (mkSeq [Ere.chr 46, Ere.star Ere.any]))) := rfl
  rw [mem_lang_mkAlt]
  simp only [List.mem_singleton, exists_eq_left]
  rw [hshape, Ere.lang, Language.mem_mul]
  constructor
  · rintro ⟨a, _, b, hb, rfl⟩
    rw [Ere.lang, Language.mem_mul] at hb
    obtain ⟨d, hd, c, hc, rfl⟩ := hb
    have hd1 : d = [46] := hd
    rw [Ere.lang, Language.mem_mul] at hc
    obtain ⟨g, hg, t, ht, rfl⟩ := hc
    obtain ⟨br, hbr, hgb⟩ := (mem_lang_mkAlt _ _).mp hg
    obtain ⟨e, he, rfl⟩ := List.mem_map.mp hbr
    have hg1 : g = e.1 := (mem_lang_name _ _).mp hgb
    obtain ⟨after, rfl⟩ := (mem_lang_dot_rest _).mp ht
    exact ⟨e, he, a, after, by simp [hd1, hg1, dot]⟩
  · rintro ⟨e, he, before, after, rfl⟩
    refine ⟨before, mem_lang_star_any _, dot :: e.1 ++ dot :: after, ?_, by simp⟩
    rw [Ere.lang, Language.mem_mul]
    refine ⟨[46], rfl, e.1 ++ dot :: after, ?_, by simp [dot]⟩
    rw [Ere.lang, Language.mem_mul]
    refine ⟨e.1, ?_, dot :: after, (mem_lang_dot_rest _).mpr ⟨after, rfl⟩, rfl⟩
    exact (mem_lang_mkAlt _ _).mpr
      ⟨mkSeq (e.1.map Ere.chr), List.mem_map.mpr ⟨e, he, rfl⟩, (mem_lang_name _ _).mpr rfl⟩

/-! ## The filter against the segment test -/

/-- With class names free of special characters, the filter compiles, and the
compiled expression matches exactly the strings with a `.name.` segment. -/
theorem desired_ids_compiled (object_to_solution : List (U16String × U16String))
    (hne : object_to_solution ≠ [])
    (hord : ∀ e ∈ object_to_solution, ∀ c ∈ e.1, ereSpecial c = false) :
    ∃ r, parseEre (desired_ids object_to_solution) = some r ∧
      ∀ w, r.rmatch w = true ↔
        ∃ e ∈ object_to_solution, ∃ before after, w = before ++ dot :: e.1 ++ dot :: after := by
  match object_to_solution, hne, hord with
  | [only], _, hord =>
    refine ⟨_, parseEre_single only.1 (hord only (by simp)), fun w => ?_⟩
    rw [Ere.rmatch_iff, mem_lang_single]
    simp
  | e1 :: e2 :: rest, _, hord =>
    refine ⟨_, parseEre_many e1 (e2 :: rest) hord, fun w => ?_⟩
    rw [Ere.rmatch_iff, mem_lang_many]

/-- Class names free of special characters: the filter built from a non-empty
class→solution map (by either branch of lines 181–194) matches a URI exactly
when the URI has one of the class names as a dot-delimited segment `.name.`.
This holds for a match of the whole URI and for an unanchored search alike,
and the condition is the test the callback makes at line 141. -/
theorem desired_ids_matches_iff (object_to_solution : List (U16String × U16String))
    (uri : URI) (hne : object_to_solution ≠ [])
    (hord : ∀ e ∈ object_to_solution, ∀ c ∈ e.1, ereSpecial c = false) :
    (ereMatches (desired_ids object_to_solution) uri = true ↔
      ∃ e ∈ object_to_solution, ∃ before after, uri = before ++ dot :: e.1 ++ dot :: after) ∧
    (ereSearch (desired_ids object_to_solution) uri = true ↔
      ∃ e ∈ object_to_solution, ∃ before after, uri = before ++ dot :: e.1 ++ dot :: after) ∧
    ((∃ e ∈ object_to_solution, ∃ before after, uri = before ++ dot :: e.1 ++ dot :: after) ↔
      ∃ e ∈ object_to_solution, hasSegment uri e.1 = true) := by
  obtain ⟨r, hr, hw⟩ := desired_ids_compiled object_to_solution hne hord
  refine ⟨?_, ?_, ?_⟩
  · simp only [ereMatches, hr]
    exact hw uri
  · simp only [ereSearch, hr, List.any_eq_true, List.mem_tails, List.mem_inits]
    constructor
    · rintro ⟨t, ⟨pre, rfl⟩, i, ⟨post, rfl⟩, hi⟩
      obtain ⟨e, he, before, after, rfl⟩ := (hw i).mp hi
      exact ⟨e, he, pre ++ before, after ++ post, by simp⟩
    · intro h
      exact ⟨uri, List.suffix_refl _, uri, List.prefix_refl _, (hw uri).mpr h⟩
  · simp only [hasSegment_iff]

/-- An instance: with the classes `cup` and `mug`, `room.mug.1` is matched and
`room.mugshot.1` is not; with `mug` alone likewise. -/
theorem desired_ids_matches_iff_witness :
    (ereMatches (desired_ids [(lit "cup", lit "cup_state"), (lit "mug", lit "switch_state")])
        (lit "room.mug.1") = true ↔
      ∃ e ∈ [(lit "cup", lit "cup_state"), (lit "mug", lit "switch_state")],
        ∃ before after, lit "room.mug.1" = before ++ dot :: e.1 ++ dot :: after) ∧
    ereMatches (desired_ids [(lit "cup", lit "cup_state"), (lit "mug", lit "switch_state")])
        (lit "room.mug.1") = true ∧
    ereMatches (desired_ids [(lit "cup", lit "cup_state"), (lit "mug", lit "switch_state")])
        (lit "room.mugshot.1") = false ∧
    ereMatches (desired_ids [(lit "mug", lit "switch_state")]) (lit "room.mugshot.1") = false ∧
    ereSearch (desired_ids [(lit "mug", lit "switch_state")]) (lit "room.mugshot.1") = false :=
  ⟨(desired_ids_matches_iff [(lit "cup", lit "cup_state"), (lit "mug", lit "switch_state")]
      (lit "room.mug.1") (by decide) (by decide)).1,
    by decide, by decide, by decide, by decide⟩

/-- C1 at a class name with a special character: the filter should match a
URI exactly when the URI has a class name as a segment `.name.`, as the
comment of line 179 says and as the test of line 141 decides.  The
configuration line `m.g switch_state` registers the class `m.g`; lines 182 and
191 paste the name into the pattern unescaped, giving `.*\\.m.g\\..*`; that
filter matches `room.mug.1`, on the whole URI and in a search, although the
URI has no segment `.m.g.` and the test of line 141 fails for it. -/
theorem desired_ids_unescaped_class :
    (readConfig true (lit "m.g switch_state\n")).object_to_solution =
      [(lit "m.g", lit "switch_state")] ∧
    desired_ids [(lit "m.g", lit "switch_state")] = lit ".*\\.m.g\\..*" ∧
    ereMatches (desired_ids [(lit "m.g", lit "switch_state")]) (lit "room.mug.1") = true ∧
    ereSearch (desired_ids [(lit "m.g", lit "switch_state")]) (lit "room.mug.1") = true ∧
    ¬ ∃ e ∈ [(lit "m.g", lit "switch_state")], hasSegment (lit "room.mug.1") e.1 = true := by
  decide


/-! ## Start-up -/

/-- The tokens of a line are what repeated extraction yields. -/
theorem wsTokens_extract (line : CString) :
    wsTokens line =
      match extract line with
      | none => []
      | some (token, unread) => token :: wsTokens unread := by
  induction line with
  | nil => simp [wsTokens, extract]
  | cons c rest ih =>
    by_cases hc : isspace c = true
    · have he : extract (c :: rest) = extract rest := by
        simp [extract, List.dropWhile_cons, hc]
      rw [he, ← ih]
      simp [wsTokens, hc]
    · have he : extract (c :: rest) =
          some (c :: rest.takeWhile (fun x => !isspace x),
            rest.dropWhile (fun x => !isspace x)) := by
        simp [extract, List.dropWhile_cons, List.takeWhile_cons, hc]
      rw [he]
      cases rest with
      | nil => simp [wsTokens, hc]
      | cons d rest1 =>
        by_cases hd : isspace d = true
        · simp [wsTokens, hc, hd, List.takeWhile_cons, List.dropWhile_cons]
        · have hed : extract (d :: rest1) =
              some (d :: rest1.takeWhile (fun x => !isspace x),
                rest1.dropWhile (fun x => !isspace x)) := by
            simp [extract, List.dropWhile_cons, List.takeWhile_cons, hd]
          rw [hed] at ih
          simp only [] at ih
          rw [wsTokens]
          simp only [hc, hd, if_false, Bool.false_eq_true]
          rw [ih]
          simp [List.takeWhile_cons, List.dropWhile_cons, hd]

/-- Line 89 succeeds exactly on the lines with at least two tokens. -/
theorem extractPair_eq_none_iff (line : CString) :
    extractPair line = none ↔ (wsTokens line).length < 2 := by
  rw [wsTokens_extract line, extractPair]
  cases h1 : extract line with
  | none => simp
  | some p =>
    obtain ⟨token, unread⟩ := p
    simp only []
    rw [wsTokens_extract unread]
    cases h2 : extract unread with
    | none => simp
    | some q => simp

/-- Assigning into the map leaves it non-empty. -/
theorem mapAssign_ne_nil (key value : U16String) (m : List (U16String × U16String)) :
    mapAssign key value m ≠ [] := by
  cases m with
  | nil => simp [mapAssign]
  | cons entry rest =>
    rw [mapAssign]
    split
    · simp
    · split <;> simp

/-- The map is empty after a line exactly when it was empty and the line gave
no pair. -/
theorem readLine_nil_iff (charSigned : Bool) (cfg : Config) (line : CString) :
    (readLine charSigned cfg line).object_to_solution = [] ↔
      cfg.object_to_solution = [] ∧ extractPair line = none := by
  rw [readLine]
  cases h : extractPair line with
  | none => simp
  | some p => simp [mapAssign_ne_nil]

/-- The map is empty after the lines exactly when it was empty and no line
gave a pair. -/
theorem foldl_readLine_nil_iff (charSigned : Bool) (lines : List CString) (cfg : Config) :
    (lines.foldl (readLine charSigned) cfg).object_to_solution = [] ↔
      cfg.object_to_solution = [] ∧ ∀ line ∈ lines, extractPair line = none := by
  induction lines generalizing cfg with
  | nil => simp
  | cons line rest ih =>
    rw [List.foldl_cons, ih, readLine_nil_iff]
    simp [and_assoc]

/-- The map read from a file is empty exactly when no line of the file has two
tokens. -/
theorem readConfig_nil_iff (charSigned : Bool) (content : CString) :
    (readConfig charSigned content).object_to_solution = [] ↔
      ∀ line ∈ getlines content none, (wsTokens line).length < 2 := by
  rw [readConfig, foldl_readLine_nil_iff]
  simp [extractPair_eq_none_iff]

/-- The run of `main` on three argument strings once `std::stoi` has read the
last one and the file of that name is open. -/
theorem main_after_open (env : Platform) (prog wm_ip port : CString) (client_port : Int)
    (content : CString) (hstoi : env.stoi port = some client_port)
    (hfile : env.files port = some content) :
    main env [prog, wm_ip, port] =
      if (readConfig env.charSigned content).object_to_solution.isEmpty then
        { ending := Ending.returned 1,
          events := Event.openConfig port ::
            (readConfig env.charSigned content).cerr.map Event.cerr ++
            [Event.cerr (lit "There are no types in the config file - aborting.\n")],
          object_to_solution := (readConfig env.charSigned content).object_to_solution,
          desired_ids := none }
      else if !env.solverConnected then
        { ending := Ending.returned 0,
          events := Event.openConfig port ::
            (readConfig env.charSigned content).cerr.map Event.cerr ++
            [Event.cerr (lit "Trying to connect to world model as a solver.\n"),
             Event.connectSolver wm_ip env.solver_port
               (readConfig env.charSigned content).type_pairs
               (toU16 env.charSigned (lit "binary_state_solver"))] ++
            [Event.cerr (lit "Could not connect to the world model as a solver - aborting.\n")],
          object_to_solution := (readConfig env.charSigned content).object_to_solution,
          desired_ids := none }
      else if !env.clientConnected then
        { ending := Ending.returned 0,
          events := Event.openConfig port ::
            (readConfig env.charSigned content).cerr.map Event.cerr ++
            [Event.cerr (lit "Trying to connect to world model as a solver.\n"),
             Event.connectSolver wm_ip env.solver_port
               (readConfig env.charSigned content).type_pairs
               (toU16 env.charSigned (lit "binary_state_solver"))] ++
            [Event.startAggregator,
             Event.cerr (lit "Trying to connect to world model as a client.\n"),
             Event.connectClient wm_ip client_port] ++
            [Event.cerr (lit "Problem connecting to world model. Exiting\n")],
          object_to_solution := (readConfig env.charSigned content).object_to_solution,
          desired_ids := some (desired_ids (readConfig env.charSigned content).object_to_solution) }
      else
        { ending := Ending.queries,
          events := Event.openConfig port ::
            (readConfig env.charSigned content).cerr.map Event.cerr ++
            [Event.cerr (lit "Trying to connect to world model as a solver.\n"),
             Event.connectSolver wm_ip env.solver_port
               (readConfig env.charSigned content).type_pairs
               (toU16 env.charSigned (lit "binary_state_solver"))] ++
            [Event.startAggregator,
             Event.cerr (lit "Trying to connect to world model as a client.\n"),
             Event.connectClient wm_ip client_port],
          object_to_solution := (readConfig env.charSigned content).object_to_solution,
          desired_ids := some (desired_ids (readConfig env.charSigned content).object_to_solution) } := by
  simp only [main, List.length_cons, List.length_nil, ne_eq, not_true_eq_false, if_false,
    List.getD_cons_succ, List.getD_cons_zero, hstoi, hfile, Nat.reduceAdd, Nat.reduceSub]

/-- C9: with the file open, `main` returns 1 without having attempted a
connection or built the filter when no line of the file has two
whitespace-separated tokens (the empty file included); when some line has,
the map is not empty, `main` does not return 1 and goes on to connect as a
solver, whatever the other lines are; and whenever the filter is built, it is
built from a non-empty map. -/
theorem main_config_classes (env : Platform) (prog wm_ip port : CString) (client_port : Int)
    (content : CString) (hstoi : env.stoi port = some client_port)
    (hfile : env.files port = some content) :
    ((∀ line ∈ getlines content none, (wsTokens line).length < 2) →
      (main env [prog, wm_ip, port]).ending = Ending.returned 1 ∧
      (main env [prog, wm_ip, port]).desired_ids = none ∧
      ∀ ev ∈ (main env [prog, wm_ip, port]).events,
        ev = Event.openConfig port ∨ ∃ text, ev = Event.cerr text) ∧
    ((∃ line ∈ getlines content none, 2 ≤ (wsTokens line).length) →
      (main env [prog, wm_ip, port]).object_to_solution ≠ [] ∧
      (main env [prog, wm_ip, port]).ending ≠ Ending.returned 1 ∧
      ∃ types origin, Event.connectSolver wm_ip env.solver_port types origin ∈
        (main env [prog, wm_ip, port]).events) ∧
    (∀ filter, (main env [prog, wm_ip, port]).desired_ids = some filter →
      (main env [prog, wm_ip, port]).object_to_solution ≠ [] ∧
      filter = desired_ids (main env [prog, wm_ip, port]).object_to_solution) := by
  rw [main_after_open env prog wm_ip port client_port content hstoi hfile]
  have hiff := readConfig_nil_iff env.charSigned content
  by_cases hnil : (readConfig env.charSigned content).object_to_solution = []
  · have hall := hiff.mp hnil
    have hE : (readConfig env.charSigned content).object_to_solution.isEmpty = true := by
      simp [hnil]
    simp only [hE, if_true]
    refine ⟨fun _ => ⟨trivial, trivial, ?_⟩, ?_, ?_⟩
    · intro ev hev
      rcases List.mem_cons.mp hev with rfl | hev
      · exact Or.inl rfl
      · rcases List.mem_append.mp hev with hev | hev
        · obtain ⟨t, _, rfl⟩ := List.mem_map.mp hev
          exact Or.inr ⟨t, rfl⟩
        · rw [List.mem_singleton] at hev
          exact Or.inr ⟨_, hev⟩
    · rintro ⟨line, hl, h2⟩
      have := hall line hl
      omega
    · intro filter hf
      cases hf
  · have hE : (readConfig env.charSigned content).object_to_solution.isEmpty = false := by
      cases h : (readConfig env.charSigned content).object_to_solution with
      | nil => exact absurd h hnil
      | cons a l => rfl
    have hsome : ¬ ∀ line ∈ getlines content none, (wsTokens line).length < 2 :=
      fun h => hnil (hiff.mpr h)
    simp only [hE, Bool.false_eq_true, if_false]
    refine ⟨fun h => absurd h hsome, fun _ => ?_, ?_⟩
    · cases env.solverConnected <;> cases env.clientConnected <;>
        simp [hnil]
    · intro filter hf
      cases hs : env.solverConnected <;> cases hc : env.clientConnected <;>
        simp [hs, hc] at hf ⊢ <;> simp [hnil, hf]

/-- Witness for C9: a file with one one-token line ends
in return value 1; with a well-formed line after it the map is not empty. -/
theorem main_config_classes_witness :
    (main (Platform.demo (lit "junk\n"))
        [lit "query_world", lit "localhost", lit "7010"]).ending = Ending.returned 1 ∧
    (main (Platform.demo (lit "junk\nmug switch_state\n"))
        [lit "query_world", lit "localhost", lit "7010"]).object_to_solution ≠ [] :=
  ⟨((main_config_classes (Platform.demo (lit "junk\n")) (lit "query_world")
      (lit "localhost") (lit "7010") 7010 (lit "junk\n") rfl rfl).1 (by decide)).1,
   ((main_config_classes (Platform.demo (lit "junk\nmug switch_state\n"))
      (lit "query_world") (lit "localhost") (lit "7010") 7010
      (lit "junk\nmug switch_state\n") rfl rfl).2.1 (by decide)).1⟩

/-- C8, as amended: the program takes exactly two arguments, the store
address and the client port.  An invocation with any other number of
arguments, a third one naming a configuration file included, takes the usage
exit of lines 56–58: it returns 0 having written the usage message and opened
no file.  An invocation with two arguments passes that check: it goes on to
`std::stoi` and, if that returns, to opening a file. -/
theorem main_argument_count (env : Platform) (arg_vector : List CString) :
    (arg_vector.length ≠ 3 →
      main env arg_vector =
        { ending := Ending.returned 0,
          events := [Event.cerr (lit
            "This program needs two arguments: the ip address and client port of a world model\n")],
          object_to_solution := [], desired_ids := none }) ∧
    (arg_vector.length = 3 →
      (main env arg_vector).ending = Ending.stoiThrew ∨
        ∃ path rest, (main env arg_vector).events = Event.openConfig path :: rest) := by
  constructor
  · intro h
    simp [main, h]
  · intro h
    match arg_vector, h with
    | [prog, address, port], _ =>
      cases hs : env.stoi port with
      | none =>
        left
        simp [main, hs]
      | some client_port =>
        right
        cases hf : env.files port with
        | none =>
          exact ⟨port,
            [Event.cerr (lit "Error opening configuration file \"" ++ port ++ lit "\"\n")],
            by simp [main, hs, hf]⟩
        | some content =>
          rw [main_after_open env prog address port client_port content hs hf]
          split
          · exact ⟨port, _, rfl⟩
          · split
            · exact ⟨port, _, rfl⟩
            · split <;> exact ⟨port, _, rfl⟩

/-- Witness for C8: with the two arguments `localhost` and `7010` a file is
opened; with no argument at all the usage exit is taken. -/
theorem main_argument_count_witness :
    (∃ path rest, (main (Platform.demo (lit "mug switch_state\n"))
        [lit "query_world", lit "localhost", lit "7010"]).events =
          Event.openConfig path :: rest) ∧
    (main (Platform.demo (lit "mug switch_state\n")) [lit "query_world"]).ending =
      Ending.returned 0 := by
  refine ⟨?_, ?_⟩
  · rcases (main_argument_count (Platform.demo (lit "mug switch_state\n"))
      [lit "query_world", lit "localhost", lit "7010"]).2 rfl with h | h
    · exact absurd h (by decide)
    · exact h
  · rw [(main_argument_count (Platform.demo (lit "mug switch_state\n"))
      [lit "query_world"]).1 (by decide)]

/-- C8 fails as stated: the invocation `query_world localhost 7010 config.txt`
supplies a store address, a client port and a configuration path, and
`config.txt` can be opened; yet `arg_count` is 4, so `main` takes the usage
exit: it returns 0 after the usage message and opens no file. -/
theorem main_config_argument_counterexample :
    main { charSigned := true,
           stoi := fun s => if s = lit "7010" then some 7010 else none,
           files := fun path =>
             if path = lit "config.txt" then some (lit "mug switch_state\n") else none,
           solver_port := 7009, solverConnected := true, clientConnected := true }
        [lit "query_world", lit "localhost", lit "7010", lit "config.txt"] =
      { ending := Ending.returned 0,
        events := [Event.cerr (lit
          "This program needs two arguments: the ip address and client port of a world model\n")],
        object_to_solution := [], desired_ids := none } := by
  rfl

end QueryWorld
